import Mathlib

/-!
# Verification of the two JSON maintenance scripts

This file gives a shallow embedding of the two Python scripts of the
repository and proves/refutes the specification's claims about them.

* `fix_correct_file.py` — strips the basmala phrase from every ayah `text`
  in surahs whose `number` is not 1 (`str.replace` followed by `str.strip`).
* `fix_hizb.py` — a print-only diagnostic loop followed by a fix loop that
  sets `hizbQuarter` to 3 on every verse whose `number` lies in [33, 50],
  all record-level reads going through defaulted `dict.get` lookups.

JSON documents are modelled by the inductive `JVal`; Python `dict`s become
association lists whose update (`setKey`) mirrors `d[k] = v` (update in
place, append if absent); the scripts' fallible traversals become
`Except String _` computations, `.error` standing for an uncaught Python
exception (KeyError / TypeError / AttributeError).  JSON numbers are
modelled as integers only (the data files involved contain only integers);
float literals are outside the model.
-/

namespace QuranFix

/-- A parsed JSON value.  Object members are kept in insertion order, as
Python dicts do. -/
inductive JVal where
  | null : JVal
  | bool : Bool → JVal
  | num : Int → JVal
  | str : List Char → JVal
  | arr : List JVal → JVal
  | obj : List (String × JVal) → JVal

/-- `d[k]` as a total lookup: the first member with key `k`, if any.
(Python dicts have unique keys, so "first" is immaterial on real data.) -/
def getKey (o : List (String × JVal)) (k : String) : Option JVal :=
  match o with
  | [] => none
  | (k', v) :: rest => if k' = k then some v else getKey rest k

/-- Replace the value of every member with key `k` (helper for `setKey`). -/
def replaceKey : List (String × JVal) → String → JVal → List (String × JVal)
  | [], _, _ => []
  | (k', v') :: rest, k, v =>
    (if k' = k then (k, v) else (k', v')) :: replaceKey rest k v

/-- `d[k] = v` on a Python dict: update the existing entry in place keeping
its position, or append a new entry at the end. -/
def setKey : List (String × JVal) → String → JVal → List (String × JVal)
  | [], k, v => [(k, v)]
  | (k', v') :: rest, k, v =>
    if k' = k then (k, v) :: replaceKey rest k v
    else (k', v') :: setKey rest k v

/-- A `for` loop over a list that rebuilds each element and aborts at the
first uncaught exception. -/
def mapE (f : JVal → Except String JVal) : List JVal → Except String (List JVal)
  | [] => .ok []
  | a :: l =>
    match f a with
    | .error e => .error e
    | .ok b =>
      match mapE f l with
      | .error e => .error e
      | .ok l' => .ok (b :: l')

/-- `true` iff the computation aborted with an uncaught exception. -/
def isErr (r : Except String JVal) : Bool :=
  match r with
  | .error _ => true
  | .ok _ => false

/-! ## Text manipulation (`str.replace`, `str.strip`, `in`) -/

/-- The whitespace characters stripped by Python's `str.strip()`
(restricted to the ASCII range; the texts involved contain only U+0020). -/
def pyIsSpace (c : Char) : Bool :=
  c == ' ' || c == '\t' || c == '\n' || c == '\r' ||
  c == Char.ofNat 11 || c == Char.ofNat 12

/-- Python `s.strip()`: drop leading and trailing whitespace. -/
def pyStrip (s : List Char) : List Char :=
  ((s.dropWhile pyIsSpace).reverse.dropWhile pyIsSpace).reverse

/-- Python `p in s` on strings: `p` occurs as a contiguous substring of `s`
(the empty string occurs in every string). -/
def containsSub (p : List Char) : List Char → Bool
  | [] => p.isEmpty
  | c :: rest => p.isPrefixOf (c :: rest) || containsSub p rest

/-- Fuel-driven core of `str.replace(p, '')`: scan left to right, deleting
each non-overlapping occurrence of `p` and resuming after it — exactly
CPython's scan.  The fuel only makes the recursion structural; with
`fuel ≥ s.length` it never runs out. -/
def removeAllFuel : Nat → List Char → List Char → List Char
  | 0, _, s => s
  | fuel + 1, p, s =>
    match s with
    | [] => []
    | c :: rest =>
      if !p.isEmpty && p.isPrefixOf (c :: rest) then
        removeAllFuel fuel p ((c :: rest).drop p.length)
      else
        c :: removeAllFuel fuel p rest

/-- Python `s.replace(p, '')` for non-empty `p`. -/
def removeAll (p s : List Char) : List Char :=
  removeAllFuel s.length p s

/-- Fuel-driven core of `s.count(p)`: the number of non-overlapping
occurrences of `p` found by the same left-to-right scan that
`str.replace` uses. -/
def occCountFuel : Nat → List Char → List Char → Nat
  | 0, _, _ => 0
  | fuel + 1, p, s =>
    match s with
    | [] => 0
    | c :: rest =>
      if !p.isEmpty && p.isPrefixOf (c :: rest) then
        occCountFuel fuel p ((c :: rest).drop p.length) + 1
      else
        occCountFuel fuel p rest

/-- The number of non-overlapping occurrences of `p` in `s`. -/
def occCount (p s : List Char) : Nat :=
  occCountFuel s.length p s

/-! ## `fix_correct_file.py` -/

/-- The basmala literal of `fix_correct_file.py`, byte for byte. -/
def basmalaStr : String := "بِسْمِ ٱللَّهِ ٱلرَّحْمَٰنِ ٱلرَّحِيمِ"

/-- The basmala as a character list. -/
def basmala : List Char := basmalaStr.data

/-- The mutation applied to a matching ayah text:
`ayah['text'].replace(basmala, '').strip()`. -/
def fixAyahText (t : List Char) : List Char :=
  pyStrip (removeAll basmala t)

/-- The body of the inner loop of `fix_correct_file.py` for one ayah:
`if basmala in ayah['text']: ayah['text'] = ayah['text'].replace(basmala, '').strip()`.
Non-`str` values of `'text'` follow Python's `in` semantics: membership in a
list, key membership in a dict, a TypeError otherwise. -/
def processAyah (ayah : JVal) : Except String JVal :=
  match ayah with
  | .obj fields =>
    match getKey fields "text" with
    | none => .error "KeyError: text"
    | some (.str t) =>
      if containsSub basmala t then
        .ok (.obj (setKey fields "text" (.str (fixAyahText t))))
      else
        .ok (.obj fields)
    | some (.arr xs) =>
      -- `basmala in <list>` is element membership (a str only ever equals
      -- a str); on a hit, `.replace` on the list raises AttributeError.
      if xs.any (fun v => match v with | .str t => decide (t = basmala) | _ => false) then
        .error "AttributeError: replace"
      else
        .ok (.obj fields)
    | some (.obj fs) =>
      -- `basmala in <dict>` is key membership.
      if fs.any (fun p => decide (p.1 = basmalaStr)) then
        .error "AttributeError: replace"
      else
        .ok (.obj fields)
    | some _ => .error "TypeError: argument of type is not iterable"
  | _ => .error "TypeError: indices must be integers"

/-- The inner loop of `fix_correct_file.py` over `surah['ayahs']` for a
surah that was not skipped.  Iterating a non-list that is an empty string
or empty dict yields nothing; iterating any other non-list value reaches
an uncaught exception at its first element (or a TypeError at once). -/
def processSurahAyahs (fields : List (String × JVal)) : Except String JVal :=
  match getKey fields "ayahs" with
  | none => .error "KeyError: ayahs"
  | some (.arr ayahs) =>
    match mapE processAyah ayahs with
    | .error e => .error e
    | .ok ayahs' => .ok (.obj (setKey fields "ayahs" (.arr ayahs')))
  | some (.str []) => .ok (.obj fields)
  | some (.obj []) => .ok (.obj fields)
  | some _ => .error "TypeError: object is not iterable"

/-- One surah of `fix_correct_file.py`'s outer loop:
skip the surah when `surah['number'] != 1` is false (Python equates
`True == 1`, so a `number` of `true` is also skipped), otherwise run the
ayah loop over `surah['ayahs']`. -/
def processSurah (surah : JVal) : Except String JVal :=
  match surah with
  | .obj fields =>
    match getKey fields "number" with
    | none => .error "KeyError: number"
    | some (.num 1) => .ok (.obj fields)
    | some (.bool true) => .ok (.obj fields)
    | some _ => processSurahAyahs fields
  | _ => .error "TypeError: indices must be integers"

/-- The whole in-memory transform of `fix_correct_file.py`: navigate
`data['data']['surahs']` and run the surah loop. -/
def fixCorrectFile (data : JVal) : Except String JVal :=
  match data with
  | .obj fields =>
    match getKey fields "data" with
    | none => .error "KeyError: data"
    | some (.obj dfields) =>
      match getKey dfields "surahs" with
      | none => .error "KeyError: surahs"
      | some (.arr surahs) =>
        match mapE processSurah surahs with
        | .error e => .error e
        | .ok surahs' =>
          .ok (.obj (setKey fields "data"
            (.obj (setKey dfields "surahs" (.arr surahs')))))
      | some (.str []) => .ok (.obj fields)
      | some (.obj []) => .ok (.obj fields)
      | some _ => .error "TypeError: object is not iterable"
    | some _ => .error "TypeError: indices must be str"
  | _ => .error "TypeError: indices must be integers"

/-! ## `fix_hizb.py` -/

/-- The numeric value Python uses when comparing a JSON value with an `int`
(`bool` is an `int` subtype); `none` means the comparison raises TypeError. -/
def toIntLike : JVal → Option Int
  | .num k => some k
  | .bool b => some (if b then 1 else 0)
  | _ => none

/-- The diagnostic (print-only) first loop of `fix_hizb.py`.  It mutates
nothing; it can only raise (AttributeError on a non-dict element,
TypeError on a non-numeric comparison) or `break` out early. -/
def diagLoop : List JVal → Except String Unit
  | [] => .ok ()
  | v :: rest =>
    match v with
    | .obj fields =>
      match getKey fields "hizbQuarter" with
      | some (.num 3) =>
        match toIntLike ((getKey fields "number").getD (.num 0)) with
        | none => .error "TypeError: comparison"
        | some sn =>
          if 8 ≤ sn ∧ sn ≤ 293 then
            match toIntLike ((getKey fields "numberInSurah").getD (.num 0)) with
            | none => .error "TypeError: comparison"
            | some vis => if vis < 50 then .ok () else diagLoop rest
          else diagLoop rest
      | _ => diagLoop rest
    | _ => .error "AttributeError: get"

/-- The body of the fix loop of `fix_hizb.py` for one verse:
`verse_num = verse.get('number', 0); if 33 <= verse_num <= 50: verse['hizbQuarter'] = 3`. -/
def processVerse (v : JVal) : Except String JVal :=
  match v with
  | .obj fields =>
    match toIntLike ((getKey fields "number").getD (.num 0)) with
    | none => .error "TypeError: comparison"
    | some k =>
      if 33 ≤ k ∧ k ≤ 50 then
        .ok (.obj (setKey fields "hizbQuarter" (.num 3)))
      else
        .ok (.obj fields)
  | _ => .error "AttributeError: get"

/-- The fix loop of `fix_hizb.py` over the whole verse list. -/
def hizbTransform (verses : List JVal) : Except String (List JVal) :=
  mapE processVerse verses

/-- The whole in-memory transform of `fix_hizb.py`: the diagnostic loop
followed by the fix loop.  The document must be iterable
(`for verse in data`); iterating an empty string or empty dict yields
nothing, any other non-list reaches an uncaught exception. -/
def fixHizb (data : JVal) : Except String JVal :=
  match data with
  | .arr verses =>
    match diagLoop verses with
    | .error e => .error e
    | .ok _ =>
      match hizbTransform verses with
      | .error e => .error e
      | .ok verses' => .ok (.arr verses')
  | .obj [] => .ok (.obj [])
  | .str [] => .ok (.str [])
  | _ => .error "AttributeError: get"

/-! ## Auxiliary predicates and concrete documents used by the claims -/

/-- An ayah record whose `text` (when it is a string) does not contain the
basmala: the text transform's predicate matches nothing on it. -/
def cleanAyah : JVal → Bool
  | .obj af =>
    match getKey af "text" with
    | some (.str t) => !containsSub basmala t
    | _ => true
  | _ => true

/-- A surah record on which a re-run of the text transform's inner loop
would mutate nothing: either it is skipped (`number` equal to 1), or every
ayah text is basmala-free. -/
def cleanSurah : JVal → Bool
  | .obj sf =>
    match getKey sf "number" with
    | some (.num 1) => true
    | some (.bool true) => true
    | _ =>
      match getKey sf "ayahs" with
      | some (.arr ayahs) => ayahs.all cleanAyah
      | _ => true
  | _ => true

/-- A document on which a re-run of the text transform would mutate
nothing: every surah of `data['data']['surahs']` is clean. -/
def cleanDoc : JVal → Bool
  | .obj fields =>
    match getKey fields "data" with
    | some (.obj dfields) =>
      match getKey dfields "surahs" with
      | some (.arr surahs) => surahs.all cleanSurah
      | _ => true
    | _ => true
  | _ => true

/-- Navigate to the `text` of the first ayah of the first surah of a
chapter-grouped document (used to tell two documents apart). -/
def firstAyahText (d : JVal) : Option JVal :=
  match d with
  | .obj fields =>
    match getKey fields "data" with
    | some (.obj dfields) =>
      match getKey dfields "surahs" with
      | some (.arr (.obj sf :: _)) =>
        match getKey sf "ayahs" with
        | some (.arr (.obj af :: _)) => getKey af "text"
        | _ => none
      | _ => none
    | _ => none
  | _ => none

/-- A text on which the single-pass removal re-forms the phrase: one extra
copy of the basmala's first character, then the basmala, then the basmala
without its first character.  The scan finds exactly one occurrence
(starting at index 1), deletes it, and the remaining characters read as
the basmala again. -/
def reformText : List Char := 'ب' :: (basmala ++ basmala.drop 1)

/-- `reformText` with a second basmala occurrence spliced in: the scan now
finds two occurrences, deletes both, and the remainder still reads as the
basmala. -/
def reformText2 : List Char := 'ب' :: (basmala ++ basmala ++ basmala.drop 1)

/-- A minimal chapter-grouped document holding `reformText` in a
non-first surah. -/
def reformDoc : JVal :=
  .obj [("data", .obj [("surahs", .arr
    [.obj [("number", .num 2), ("ayahs", .arr [.obj [("text", .str reformText)]])]])])]

/-- What `fix_correct_file.py` makes of `reformDoc`: the ayah text is now
exactly the basmala. -/
def reformDoc1 : JVal :=
  .obj [("data", .obj [("surahs", .arr
    [.obj [("number", .num 2), ("ayahs", .arr [.obj [("text", .str basmala)]])]])])]

/-- What a second run of `fix_correct_file.py` makes of `reformDoc1`: the
ayah text is now empty. -/
def reformDoc2 : JVal :=
  .obj [("data", .obj [("surahs", .arr
    [.obj [("number", .num 2), ("ayahs", .arr [.obj [("text", .str ([] : List Char))]])]])])]

/-! ## Serialization and parsing (`json.dump` / `json.load`)

`json.dump(data, f, ensure_ascii=False, indent=2)` writes the value with
two-space nested indentation, item separator `",\n"`, key separator `": "`,
non-ASCII characters literal, and escapes only `"`, `\` and control
characters below U+0020 (with the usual short escapes).  `json.load` is a
plain JSON reader; dict construction collapses duplicate keys exactly like
repeated `d[k] = v` assignments.  Out of model scope: float literals,
leading-zero rejection, and surrogate-pair recombination in `\uXXXX`
escapes (the serializer emits none of these). -/

/-- `'\x7b'`, written via code point to keep braces out of literals. -/
def lbrace : Char := Char.ofNat 123

/-- `'\x7d'`. -/
def rbrace : Char := Char.ofNat 125

/-- Lower-case hex digit for a nibble. -/
def hexDigit (n : Nat) : Char :=
  if n < 10 then Char.ofNat (48 + n) else Char.ofNat (87 + n)

/-- How `json.dump` with `ensure_ascii=False` writes one character inside
a string literal. -/
def escChar (c : Char) : List Char :=
  if c = '"' then ['\\', '"']
  else if c = '\\' then ['\\', '\\']
  else if c = '\n' then ['\\', 'n']
  else if c = '\t' then ['\\', 't']
  else if c = '\r' then ['\\', 'r']
  else if c = Char.ofNat 8 then ['\\', 'b']
  else if c = Char.ofNat 12 then ['\\', 'f']
  else if c.toNat < 32 then
    ['\\', 'u', '0', '0', hexDigit (c.toNat / 16), hexDigit (c.toNat % 16)]
  else [c]

/-- A JSON string literal. -/
def serStr (s : List Char) : List Char :=
  '"' :: ((s.map escChar).flatten ++ ['"'])

/-- The decimal digit character for `d < 10`. -/
def digitChar (d : Nat) : Char := Char.ofNat (48 + d)

/-- Decimal representation of a natural number, most significant first. -/
def serNat (n : Nat) : List Char :=
  if n = 0 then ['0'] else (Nat.digits 10 n).reverse.map digitChar

/-- Decimal representation of an integer. -/
def serInt : Int → List Char
  | .ofNat n => serNat n
  | .negSucc n => '-' :: serNat (n + 1)

/-- `n` spaces of indentation. -/
def spaces (n : Nat) : List Char := List.replicate n ' '

mutual

/-- `json.dump(v, indent=2, ensure_ascii=False)` at indentation `ind`. -/
def serVal : Nat → JVal → List Char
  | _, .null => ['n', 'u', 'l', 'l']
  | _, .bool true => ['t', 'r', 'u', 'e']
  | _, .bool false => ['f', 'a', 'l', 's', 'e']
  | _, .num n => serInt n
  | _, .str s => serStr s
  | _, .arr [] => ['[', ']']
  | ind, .arr (v :: vs) =>
    '[' :: '\n' :: (spaces (ind + 2) ++ serVal (ind + 2) v ++
      serItems (ind + 2) vs ++ '\n' :: (spaces ind ++ [']']))
  | _, .obj [] => [lbrace, rbrace]
  | ind, .obj (m :: ms) =>
    lbrace :: '\n' :: (spaces (ind + 2) ++ serMemb (ind + 2) m ++
      serMembs (ind + 2) ms ++ '\n' :: (spaces ind ++ [rbrace]))

/-- One object member: `"key": value`. -/
def serMemb : Nat → String × JVal → List Char
  | ind, (k, v) => serStr k.data ++ ':' :: ' ' :: serVal ind v

/-- The remaining array items, each preceded by `",\n" ++ indent`. -/
def serItems : Nat → List JVal → List Char
  | _, [] => []
  | ind, v :: vs => ',' :: '\n' :: (spaces ind ++ serVal ind v ++ serItems ind vs)

/-- The remaining object members, each preceded by `",\n" ++ indent`. -/
def serMembs : Nat → List (String × JVal) → List Char
  | _, [] => []
  | ind, m :: ms => ',' :: '\n' :: (spaces ind ++ serMemb ind m ++ serMembs ind ms)

end

/-- The file contents written by either script. -/
def serialize (v : JVal) : List Char := serVal 0 v

/-- JSON whitespace. -/
def isWsChar (c : Char) : Bool :=
  c == ' ' || c == '\n' || c == '\t' || c == '\r'

/-- Skip insignificant whitespace. -/
def skipWs (s : List Char) : List Char := s.dropWhile isWsChar

/-- Value of one hex digit. -/
def hexVal (c : Char) : Option Nat :=
  if '0' ≤ c ∧ c ≤ '9' then some (c.toNat - 48)
  else if 'a' ≤ c ∧ c ≤ 'f' then some (c.toNat - 87)
  else if 'A' ≤ c ∧ c ≤ 'F' then some (c.toNat - 55)
  else none

/-- Fuel-driven body of a JSON string literal after the opening quote: the
decoded characters and the input after the closing quote.  Each step
consumes at least one character, so `fuel ≥ input length` never runs out. -/
def parseStrBodyF : Nat → List Char → Option (List Char × List Char)
  | 0, _ => none
  | _ + 1, [] => none
  | fuel + 1, c :: rest =>
    if c = '"' then some ([], rest)
    else if c = '\\' then
      match rest with
      | e :: r₂ =>
        if e = '"' then (parseStrBodyF fuel r₂).map (fun p => ('"' :: p.1, p.2))
        else if e = '\\' then (parseStrBodyF fuel r₂).map (fun p => ('\\' :: p.1, p.2))
        else if e = '/' then (parseStrBodyF fuel r₂).map (fun p => ('/' :: p.1, p.2))
        else if e = 'n' then (parseStrBodyF fuel r₂).map (fun p => ('\n' :: p.1, p.2))
        else if e = 't' then (parseStrBodyF fuel r₂).map (fun p => ('\t' :: p.1, p.2))
        else if e = 'r' then (parseStrBodyF fuel r₂).map (fun p => ('\r' :: p.1, p.2))
        else if e = 'b' then
          (parseStrBodyF fuel r₂).map (fun p => (Char.ofNat 8 :: p.1, p.2))
        else if e = 'f' then
          (parseStrBodyF fuel r₂).map (fun p => (Char.ofNat 12 :: p.1, p.2))
        else if e = 'u' then
          match r₂ with
          | h₁ :: h₂ :: h₃ :: h₄ :: r₃ =>
            match hexVal h₁, hexVal h₂, hexVal h₃, hexVal h₄ with
            | some a, some b, some c', some d =>
              (parseStrBodyF fuel r₃).map (fun p =>
                (Char.ofNat (((a * 16 + b) * 16 + c') * 16 + d) :: p.1, p.2))
            | _, _, _, _ => none
          | _ => none
        else none
      | [] => none
    else if c.toNat < 32 then none
    else (parseStrBodyF fuel rest).map (fun p => (c :: p.1, p.2))

/-- Body of a JSON string literal after the opening quote. -/
def parseStrBody (s : List Char) : Option (List Char × List Char) :=
  parseStrBodyF s.length s

/-- Greedy run of decimal digits, `acc` being the value read so far. -/
def parseNatAcc (acc : Nat) : List Char → Nat × List Char
  | [] => (acc, [])
  | c :: rest =>
    if c.isDigit then parseNatAcc (acc * 10 + (c.toNat - 48)) rest
    else (acc, c :: rest)

/-- Incremental dict construction: repeated `d[k] = v`, so a duplicated
key keeps its first position and the last value. -/
def collapseMembs (l : List (String × JVal)) : List (String × JVal) :=
  l.foldl (fun acc m => setKey acc m.1 m.2) []

mutual

/-- One JSON value (with leading whitespace), returning the value and the
unconsumed input.  The fuel bounds nesting; `parse` supplies more fuel
than the input length, which is always enough. -/
def parseVal : Nat → List Char → Option (JVal × List Char)
  | 0, _ => none
  | fuel + 1, s =>
    match skipWs s with
    | [] => none
    | c :: rest =>
      if c = lbrace then
        match skipWs rest with
        | c₂ :: r₂ =>
          if c₂ = rbrace then some (.obj [], r₂)
          else if c₂ = '"' then
            match parseStrBody r₂ with
            | some (kcs, r₃) =>
              match skipWs r₃ with
              | c₃ :: r₄ =>
                if c₃ = ':' then
                  match parseVal fuel r₄ with
                  | some (v, r₅) =>
                    match parseMembs fuel r₅ with
                    | some (ms, r₆) =>
                      some (.obj (collapseMembs ((String.mk kcs, v) :: ms)), r₆)
                    | none => none
                  | none => none
                else none
              | [] => none
            | none => none
          else none
        | [] => none
      else if c = '[' then
        match skipWs rest with
        | c₂ :: r₂ =>
          if c₂ = ']' then some (.arr [], r₂)
          else
            match parseVal fuel rest with
            | some (v, r₃) =>
              match parseItems fuel r₃ with
              | some (vs, r₄) => some (.arr (v :: vs), r₄)
              | none => none
            | none => none
        | [] => none
      else if c = '"' then
        match parseStrBody rest with
        | some (cs, r₂) => some (.str cs, r₂)
        | none => none
      else if c = 'n' then
        match rest with
        | 'u' :: 'l' :: 'l' :: r₂ => some (.null, r₂)
        | _ => none
      else if c = 't' then
        match rest with
        | 'r' :: 'u' :: 'e' :: r₂ => some (.bool true, r₂)
        | _ => none
      else if c = 'f' then
        match rest with
        | 'a' :: 'l' :: 's' :: 'e' :: r₂ => some (.bool false, r₂)
        | _ => none
      else if c = '-' then
        match rest with
        | d :: _ =>
          if d.isDigit then
            let pr := parseNatAcc 0 rest
            some (.num (-(pr.1 : Int)), pr.2)
          else none
        | [] => none
      else if c.isDigit then
        let pr := parseNatAcc (c.toNat - 48) rest
        some (.num (pr.1 : Int), pr.2)
      else none

/-- The remaining array items: `("," value)* "]"`. -/
def parseItems : Nat → List Char → Option (List JVal × List Char)
  | 0, _ => none
  | fuel + 1, s =>
    match skipWs s with
    | c :: rest =>
      if c = ']' then some ([], rest)
      else if c = ',' then
        match parseVal fuel rest with
        | some (v, r₂) =>
          match parseItems fuel r₂ with
          | some (vs, r₃) => some (v :: vs, r₃)
          | none => none
        | none => none
      else none
    | [] => none

/-- The remaining object members: `("," string ":" value)* closing brace`. -/
def parseMembs : Nat → List Char → Option (List (String × JVal) × List Char)
  | 0, _ => none
  | fuel + 1, s =>
    match skipWs s with
    | c :: rest =>
      if c = rbrace then some ([], rest)
      else if c = ',' then
        match skipWs rest with
        | c₂ :: r₂ =>
          if c₂ = '"' then
            match parseStrBody r₂ with
            | some (kcs, r₃) =>
              match skipWs r₃ with
              | c₃ :: r₄ =>
                if c₃ = ':' then
                  match parseVal fuel r₄ with
                  | some (v, r₅) =>
                    match parseMembs fuel r₅ with
                    | some (ms, r₆) => some ((String.mk kcs, v) :: ms, r₆)
                    | none => none
                  | none => none
                else none
              | [] => none
            | none => none
          else none
        | [] => none
      else none
    | [] => none

end

/-- `json.load`: one value followed by nothing but whitespace. -/
def parse (s : List Char) : Option JVal :=
  match parseVal (s.length + 1) s with
  | some (v, rest) => if (skipWs rest).isEmpty then some v else none
  | none => none

/-- `true` iff the keys of an object's member list are pairwise distinct
(always the case for a value built by `json.load`). -/
def keysDistinct : List (String × JVal) → Bool
  | [] => true
  | (k, _) :: rest => !(rest.any fun p => decide (p.1 = k)) && keysDistinct rest

mutual

/-- Fuel-checked well-formedness: every object in the value has pairwise
distinct keys.  Exhausted fuel answers `false`, so `WFbFuel fuel v = true`
certifies the property at every depth. -/
def WFbFuel : Nat → JVal → Bool
  | 0, _ => false
  | fuel + 1, .arr l => WFbItems fuel l
  | fuel + 1, .obj ms => keysDistinct ms && WFbMembs fuel ms
  | _ + 1, _ => true

/-- `WFbFuel` over the elements of an array. -/
def WFbItems : Nat → List JVal → Bool
  | 0, _ => false
  | _ + 1, [] => true
  | fuel + 1, v :: vs => WFbFuel fuel v && WFbItems fuel vs

/-- `WFbFuel` over the values of an object. -/
def WFbMembs : Nat → List (String × JVal) → Bool
  | 0, _ => false
  | _ + 1, [] => true
  | fuel + 1, m :: ms => WFbFuel fuel m.2 && WFbMembs fuel ms

end

/-- A small concrete document shaped like the scripts' data files, used to
exercise the serialize/parse round-trip on a nested object/array mix. -/
def exDoc8 : JVal :=
  .obj [("code", .num 200),
        ("data", .obj [("surahs", .arr [.obj [("number", .num 2),
          ("ayahs", .arr [.obj [("numberInSurah", .num 1),
            ("text", .str "abc".data),
            ("sajda", .bool false)], .null])]])])]

/-! ## Lemmas: dict lookup and update -/

theorem getKey_cons_self (rest : List (String × JVal)) (k : String) (u : JVal) :
    getKey ((k, u) :: rest) k = some u := by
  simp [getKey]

theorem getKey_cons_ne (rest : List (String × JVal)) (k₀ k : String) (u : JVal)
    (h : k₀ ≠ k) : getKey ((k₀, u) :: rest) k = getKey rest k := by
  simp [getKey, h]

theorem replaceKey_cons_self (rest : List (String × JVal)) (k : String) (u v : JVal) :
    replaceKey ((k, u) :: rest) k v = (k, v) :: replaceKey rest k v := by
  simp [replaceKey]

theorem replaceKey_cons_ne (rest : List (String × JVal)) (k₀ k : String) (u v : JVal)
    (h : k₀ ≠ k) : replaceKey ((k₀, u) :: rest) k v = (k₀, u) :: replaceKey rest k v := by
  simp [replaceKey, h]

theorem setKey_cons_self (rest : List (String × JVal)) (k : String) (u v : JVal) :
    setKey ((k, u) :: rest) k v = (k, v) :: replaceKey rest k v := by
  simp [setKey]

theorem setKey_cons_ne (rest : List (String × JVal)) (k₀ k : String) (u v : JVal)
    (h : k₀ ≠ k) : setKey ((k₀, u) :: rest) k v = (k₀, u) :: setKey rest k v := by
  simp [setKey, h]

theorem getKey_replaceKey_ne (o : List (String × JVal)) (k k' : String) (v : JVal)
    (h : k' ≠ k) : getKey (replaceKey o k v) k' = getKey o k' := by
  induction o with
  | nil => rfl
  | cons p rest ih =>
    obtain ⟨k₀, v₀⟩ := p
    by_cases hk : k₀ = k
    · subst hk
      rw [replaceKey_cons_self, getKey_cons_ne _ _ _ _ (Ne.symm h),
        getKey_cons_ne _ _ _ _ (Ne.symm h), ih]
    · rw [replaceKey_cons_ne _ _ _ _ _ hk]
      by_cases hq : k₀ = k'
      · subst hq
        rw [getKey_cons_self, getKey_cons_self]
      · rw [getKey_cons_ne _ _ _ _ hq, getKey_cons_ne _ _ _ _ hq, ih]

theorem getKey_setKey_self (o : List (String × JVal)) (k : String) (v : JVal) :
    getKey (setKey o k v) k = some v := by
  induction o with
  | nil => simp [setKey, getKey]
  | cons p rest ih =>
    obtain ⟨k₀, v₀⟩ := p
    by_cases hk : k₀ = k
    · subst hk
      rw [setKey_cons_self, getKey_cons_self]
    · rw [setKey_cons_ne _ _ _ _ _ hk, getKey_cons_ne _ _ _ _ hk, ih]

theorem getKey_setKey_ne (o : List (String × JVal)) (k k' : String) (v : JVal)
    (h : k' ≠ k) : getKey (setKey o k v) k' = getKey o k' := by
  induction o with
  | nil => simp [setKey, getKey, Ne.symm h]
  | cons p rest ih =>
    obtain ⟨k₀, v₀⟩ := p
    by_cases hk : k₀ = k
    · subst hk
      rw [setKey_cons_self, getKey_cons_ne _ _ _ _ (Ne.symm h),
        getKey_cons_ne _ _ _ _ (Ne.symm h), getKey_replaceKey_ne rest k₀ k' v h]
    · by_cases hq : k₀ = k'
      · subst hq
        rw [setKey_cons_ne _ _ _ _ _ hk, getKey_cons_self, getKey_cons_self]
      · rw [setKey_cons_ne _ _ _ _ _ hk, getKey_cons_ne _ _ _ _ hq,
          getKey_cons_ne _ _ _ _ hq, ih]

theorem replaceKey_replaceKey (o : List (String × JVal)) (k : String) (v w : JVal) :
    replaceKey (replaceKey o k v) k w = replaceKey o k w := by
  induction o with
  | nil => rfl
  | cons p rest ih =>
    obtain ⟨k₀, v₀⟩ := p
    by_cases hk : k₀ = k
    · subst hk
      rw [replaceKey_cons_self, replaceKey_cons_self, replaceKey_cons_self, ih]
    · rw [replaceKey_cons_ne _ _ _ _ _ hk, replaceKey_cons_ne _ _ _ _ _ hk,
        replaceKey_cons_ne _ _ _ _ _ hk, ih]

theorem setKey_setKey (o : List (String × JVal)) (k : String) (v w : JVal) :
    setKey (setKey o k v) k w = setKey o k w := by
  induction o with
  | nil => simp [setKey, replaceKey]
  | cons p rest ih =>
    obtain ⟨k₀, v₀⟩ := p
    by_cases hk : k₀ = k
    · subst hk
      rw [setKey_cons_self, setKey_cons_self, setKey_cons_self, replaceKey_replaceKey]
    · rw [setKey_cons_ne _ _ _ _ _ hk, setKey_cons_ne _ _ _ _ _ hk,
        setKey_cons_ne _ _ _ _ _ hk, ih]

/-! ## Lemmas: the exception-propagating loop -/

theorem mapE_ok_mem {f : JVal → Except String JVal} :
    ∀ {l l' : List JVal}, mapE f l = .ok l' → ∀ b ∈ l', ∃ a ∈ l, f a = .ok b := by
  intro l
  induction l with
  | nil =>
    intro l' h b hb
    simp [mapE] at h
    subst h
    simp at hb
  | cons a rest ih =>
    intro l' h b hb
    cases hfa : f a with
    | error e => simp [mapE, hfa] at h
    | ok c =>
      cases hml : mapE f rest with
      | error e => simp [mapE, hfa, hml] at h
      | ok rest' =>
        simp [mapE, hfa, hml] at h
        subst h
        rcases List.mem_cons.mp hb with hb | hb
        · exact ⟨a, by simp, hb ▸ hfa⟩
        · obtain ⟨a', ha', hfa'⟩ := ih hml b hb
          exact ⟨a', by simp [ha'], hfa'⟩

theorem mapE_ok_id {f : JVal → Except String JVal} :
    ∀ {l : List JVal}, (∀ a ∈ l, f a = .ok a) → mapE f l = .ok l := by
  intro l
  induction l with
  | nil => intro _; rfl
  | cons a rest ih =>
    intro h
    have ha : f a = .ok a := h a (by simp)
    have hr : mapE f rest = .ok rest := ih (fun b hb => h b (by simp [hb]))
    simp [mapE, ha, hr]

theorem mapE_ok_length {f : JVal → Except String JVal} :
    ∀ {l l' : List JVal}, mapE f l = .ok l' → l'.length = l.length := by
  intro l
  induction l with
  | nil =>
    intro l' h
    simp [mapE] at h
    simp [← h]
  | cons a rest ih =>
    intro l' h
    cases hfa : f a with
    | error e => simp [mapE, hfa] at h
    | ok c =>
      cases hml : mapE f rest with
      | error e => simp [mapE, hfa, hml] at h
      | ok rest' =>
        simp [mapE, hfa, hml] at h
        simp [← h, ih hml]

theorem mapE_cons_ok {f : JVal → Except String JVal} {a : JVal} {l l' : List JVal}
    (h : mapE f (a :: l) = .ok l') :
    ∃ b l'', f a = .ok b ∧ mapE f l = .ok l'' ∧ l' = b :: l'' := by
  cases hfa : f a with
  | error e => simp [mapE, hfa] at h
  | ok c =>
    cases hml : mapE f l with
    | error e => simp [mapE, hfa, hml] at h
    | ok rest' =>
      simp [mapE, hfa, hml] at h
      exact ⟨c, rest', rfl, rfl, h.symm⟩

/-! ## Lemmas: unfolding the surah loop -/

theorem processSurah_skip {sfields : List (String × JVal)}
    (h : getKey sfields "number" = some (.num 1)) :
    processSurah (.obj sfields) = .ok (.obj sfields) := by
  simp [processSurah, h]

theorem processSurah_go {sfields : List (String × JVal)} {n : Int}
    (h : getKey sfields "number" = some (.num n)) (hn : n ≠ 1) :
    processSurah (.obj sfields) = processSurahAyahs sfields := by
  have hdef : processSurah (.obj sfields) =
      (match getKey sfields "number" with
       | none => .error "KeyError: number"
       | some (.num 1) => .ok (.obj sfields)
       | some (.bool true) => .ok (.obj sfields)
       | some _ => processSurahAyahs sfields) := rfl
  rw [hdef, h]
  split
  · rename_i heq
    simp at heq
  · rename_i heq
    simp at heq
    exact absurd heq hn
  · rename_i heq
    simp at heq
  · rfl

/-! ## Lemmas: substrings, removal and trimming -/

theorem prefixCheck_iff : ∀ (p s : List Char), p.isPrefixOf s = true ↔ p <+: s := by
  intro p
  induction p with
  | nil =>
    intro s
    simp [List.isPrefixOf]
  | cons c cp ih =>
    intro s
    cases s with
    | nil => simp [List.isPrefixOf]
    | cons d sd => simp [List.isPrefixOf, List.cons_prefix_cons, ih]

theorem sufToInf {l₁ l₂ : List Char} (h : l₁ <:+ l₂) : l₁ <:+: l₂ := by
  obtain ⟨t, ht⟩ := h
  exact ⟨t, [], by simp [ht]⟩

theorem preToInf {l₁ l₂ : List Char} (h : l₁ <+: l₂) : l₁ <:+: l₂ := by
  obtain ⟨t, ht⟩ := h
  exact ⟨[], t, by simp [ht]⟩

theorem pyStrip_infix_self (s : List Char) : pyStrip s <:+: s := by
  have h1 : List.dropWhile pyIsSpace s <:+ s := List.dropWhile_suffix _
  have h2 : List.dropWhile pyIsSpace (List.dropWhile pyIsSpace s).reverse <:+
      (List.dropWhile pyIsSpace s).reverse := List.dropWhile_suffix _
  have h3 : (List.dropWhile pyIsSpace (List.dropWhile pyIsSpace s).reverse).reverse <+:
      List.dropWhile pyIsSpace s := by
    rw [← List.reverse_suffix]
    simpa using h2
  exact (preToInf h3).trans (sufToInf h1)

theorem containsSub_iff (p s : List Char) : containsSub p s = true ↔ p <:+: s := by
  induction s with
  | nil =>
    constructor
    · intro h
      simp only [containsSub, List.isEmpty_iff] at h
      simp [h, List.infix_nil]
    · intro h
      rw [List.infix_nil] at h
      simp [containsSub, h, List.isEmpty_iff]
  | cons c rest ih =>
    constructor
    · intro h
      simp only [containsSub, Bool.or_eq_true] at h
      rcases h with h | h
      · exact preToInf ((prefixCheck_iff p (c :: rest)).mp h)
      · exact List.infix_cons_iff.mpr (Or.inr (ih.mp h))
    · intro h
      rcases List.infix_cons_iff.mp h with h | h
      · simp only [containsSub, Bool.or_eq_true]
        exact Or.inl ((prefixCheck_iff p (c :: rest)).mpr h)
      · simp only [containsSub, Bool.or_eq_true]
        exact Or.inr (ih.mpr h)

theorem containsSub_pyStrip {p s : List Char} (h : containsSub p s = false) :
    containsSub p (pyStrip s) = false := by
  cases hc : containsSub p (pyStrip s) with
  | false => rfl
  | true =>
    have : p <:+: s := ((containsSub_iff p (pyStrip s)).mp hc).trans (pyStrip_infix_self s)
    rw [← containsSub_iff p s] at this
    rw [this] at h
    cases h

theorem removeAllFuel_congr (p : List Char) :
    ∀ (f₁ f₂ : Nat) (s : List Char), s.length ≤ f₁ → s.length ≤ f₂ →
      removeAllFuel f₁ p s = removeAllFuel f₂ p s := by
  intro f₁
  induction f₁ with
  | zero =>
    intro f₂ s h1 h2
    have hs : s = [] := List.length_eq_zero.mp (Nat.le_zero.mp h1)
    subst hs
    cases f₂ <;> rfl
  | succ f ih =>
    intro f₂ s h1 h2
    cases s with
    | nil => cases f₂ <;> rfl
    | cons c rest =>
      cases f₂ with
      | zero => simp at h2
      | succ f₂' =>
        simp only [removeAllFuel]
        by_cases hg : (!p.isEmpty && p.isPrefixOf (c :: rest)) = true
        · rw [if_pos hg, if_pos hg]
          have hp : p ≠ [] := by
            rcases Bool.and_eq_true_iff.mp hg with ⟨hp', _⟩
            intro hnil
            rw [hnil] at hp'
            simp [List.isEmpty] at hp'
          have hpl : 1 ≤ p.length := List.length_pos.mpr hp
          have hdl : ((c :: rest).drop p.length).length = (c :: rest).length - p.length := by
            rw [List.length_drop]
          apply ih
          · rw [hdl]
            simp only [List.length_cons] at h1 ⊢
            omega
          · rw [hdl]
            simp only [List.length_cons] at h2 ⊢
            omega
        · rw [if_neg hg, if_neg hg]
          have hr1 : rest.length ≤ f := by
            simp only [List.length_cons] at h1
            omega
          have hr2 : rest.length ≤ f₂' := by
            simp only [List.length_cons] at h2
            omega
          rw [ih f₂' rest hr1 hr2]

theorem removeAll_cons_of_neg {p : List Char} {c : Char} {rest : List Char}
    (h : (!p.isEmpty && p.isPrefixOf (c :: rest)) = false) :
    removeAll p (c :: rest) = c :: removeAll p rest := by
  show removeAllFuel (c :: rest).length p (c :: rest) = _
  simp only [List.length_cons, removeAllFuel]
  rw [if_neg (by simp [h])]
  rfl

theorem removeAll_cons_of_pos {p : List Char} {c : Char} {rest : List Char}
    (h : (!p.isEmpty && p.isPrefixOf (c :: rest)) = true) :
    removeAll p (c :: rest) = removeAll p ((c :: rest).drop p.length) := by
  show removeAllFuel (c :: rest).length p (c :: rest) = _
  simp only [List.length_cons, removeAllFuel]
  rw [if_pos (by simp [h])]
  have hp : p ≠ [] := by
    rcases Bool.and_eq_true_iff.mp h with ⟨hp', _⟩
    intro hnil
    rw [hnil] at hp'
    simp [List.isEmpty] at hp'
  have hpl : 1 ≤ p.length := List.length_pos.mpr hp
  apply removeAllFuel_congr
  · rw [List.length_drop]
    simp only [List.length_cons]
    omega
  · rw [List.length_drop]

theorem removeAll_prepend (p s : List Char) (hp : p ≠ []) :
    removeAll p (p ++ s) = removeAll p s := by
  obtain ⟨c, p', rfl⟩ : ∃ c p', p = c :: p' := by
    cases p with
    | nil => exact absurd rfl hp
    | cons c p' => exact ⟨c, p', rfl⟩
  have hg : (!(c :: p').isEmpty && (c :: p').isPrefixOf (c :: (p' ++ s))) = true := by
    rw [Bool.and_eq_true_iff]
    constructor
    · simp [List.isEmpty]
    · rw [prefixCheck_iff]
      rw [← List.cons_append]
      exact List.prefix_append _ _
  rw [show (c :: p') ++ s = c :: (p' ++ s) from rfl]
  rw [removeAll_cons_of_pos hg]
  have hdrop : (c :: (p' ++ s)).drop (c :: p').length = s := by
    rw [← List.cons_append]
    exact List.drop_left _ _
  rw [hdrop]

/-! ## Lemmas: unfolding the embedded functions -/

theorem processAyah_obj (af : List (String × JVal)) :
    processAyah (.obj af) =
      (match getKey af "text" with
       | none => .error "KeyError: text"
       | some (.str t) =>
         if containsSub basmala t then
           .ok (.obj (setKey af "text" (.str (fixAyahText t))))
         else
           .ok (.obj af)
       | some (.arr xs) =>
         if xs.any (fun v => match v with | .str t => decide (t = basmala) | _ => false) then
           .error "AttributeError: replace"
         else
           .ok (.obj af)
       | some (.obj fs) =>
         if fs.any (fun p => decide (p.1 = basmalaStr)) then
           .error "AttributeError: replace"
         else
           .ok (.obj af)
       | some _ => .error "TypeError: argument of type is not iterable") := rfl

theorem processAyah_pos {af : List (String × JVal)} {t : List Char}
    (h : getKey af "text" = some (.str t)) (hb : containsSub basmala t = true) :
    processAyah (.obj af) = .ok (.obj (setKey af "text" (.str (fixAyahText t)))) := by
  rw [processAyah_obj, h]
  simp [hb]

theorem processAyah_neg {af : List (String × JVal)} {t : List Char}
    (h : getKey af "text" = some (.str t)) (hb : containsSub basmala t = false) :
    processAyah (.obj af) = .ok (.obj af) := by
  rw [processAyah_obj, h]
  simp [hb]

theorem processAyah_missing {af : List (String × JVal)}
    (h : getKey af "text" = none) :
    processAyah (.obj af) = .error "KeyError: text" := by
  rw [processAyah_obj, h]

theorem processVerse_obj (f : List (String × JVal)) :
    processVerse (.obj f) =
      (match toIntLike ((getKey f "number").getD (.num 0)) with
       | none => .error "TypeError: comparison"
       | some k =>
         if 33 ≤ k ∧ k ≤ 50 then
           .ok (.obj (setKey f "hizbQuarter" (.num 3)))
         else
           .ok (.obj f)) := rfl

theorem processVerse_in {f : List (String × JVal)} {k : Int}
    (h : getKey f "number" = some (.num k)) (hk : 33 ≤ k ∧ k ≤ 50) :
    processVerse (.obj f) = .ok (.obj (setKey f "hizbQuarter" (.num 3))) := by
  rw [processVerse_obj, h]
  simp [toIntLike, hk]

theorem processVerse_out {f : List (String × JVal)} {k : Int}
    (h : getKey f "number" = some (.num k)) (hk : ¬(33 ≤ k ∧ k ≤ 50)) :
    processVerse (.obj f) = .ok (.obj f) := by
  rw [processVerse_obj, h]
  simp [toIntLike, hk]

theorem processVerse_default {f : List (String × JVal)}
    (h : getKey f "number" = none) :
    processVerse (.obj f) = .ok (.obj f) := by
  rw [processVerse_obj, h]
  simp [toIntLike]

theorem processVerse_idem {v v' : JVal} (h : processVerse v = .ok v') :
    processVerse v' = .ok v' := by
  cases v with
  | obj f =>
    rw [processVerse_obj] at h
    cases hn : toIntLike ((getKey f "number").getD (.num 0)) with
    | none =>
      rw [hn] at h
      exact Except.noConfusion h
    | some k =>
      rw [hn] at h
      replace h : (if 33 ≤ k ∧ k ≤ 50 then
          Except.ok (JVal.obj (setKey f "hizbQuarter" (JVal.num 3)))
        else Except.ok (JVal.obj f)) = Except.ok v' := h
      by_cases hk : 33 ≤ k ∧ k ≤ 50
      · rw [if_pos hk] at h
        injection h with h'
        subst h'
        rw [processVerse_obj]
        rw [getKey_setKey_ne _ _ _ _ (by decide : ("number" : String) ≠ "hizbQuarter")]
        rw [hn]
        simp [hk, setKey_setKey]
      · rw [if_neg hk] at h
        injection h with h'
        subst h'
        rw [processVerse_obj, hn]
        simp [hk]
  | null => exact Except.noConfusion h
  | bool b => exact Except.noConfusion h
  | num n => exact Except.noConfusion h
  | str s => exact Except.noConfusion h
  | arr l => exact Except.noConfusion h

theorem hizbTransform_idem {vs vs' : List JVal} (h : hizbTransform vs = .ok vs') :
    hizbTransform vs' = .ok vs' := by
  unfold hizbTransform at h ⊢
  apply mapE_ok_id
  intro b hb
  obtain ⟨a, _, hfa⟩ := mapE_ok_mem h b hb
  exact processVerse_idem hfa

theorem diagLoop_cons (f : List (String × JVal)) (rest : List JVal) :
    diagLoop (.obj f :: rest) =
      (match getKey f "hizbQuarter" with
       | some (.num 3) =>
         match toIntLike ((getKey f "number").getD (.num 0)) with
         | none => .error "TypeError: comparison"
         | some sn =>
           if 8 ≤ sn ∧ sn ≤ 293 then
             match toIntLike ((getKey f "numberInSurah").getD (.num 0)) with
             | none => .error "TypeError: comparison"
             | some vis => if vis < 50 then .ok () else diagLoop rest
           else diagLoop rest
       | _ => diagLoop rest) := rfl

theorem processSurahAyahs_go {fields : List (String × JVal)} {ayahs : List JVal}
    (h : getKey fields "ayahs" = some (.arr ayahs)) :
    processSurahAyahs fields =
      (match mapE processAyah ayahs with
       | .error e => .error e
       | .ok ayahs' => .ok (.obj (setKey fields "ayahs" (.arr ayahs')))) := by
  unfold processSurahAyahs
  rw [h]

theorem processSurahAyahs_missing {fields : List (String × JVal)}
    (h : getKey fields "ayahs" = none) :
    processSurahAyahs fields = .error "KeyError: ayahs" := by
  unfold processSurahAyahs
  rw [h]

theorem fixCorrectFile_obj (fields : List (String × JVal)) :
    fixCorrectFile (.obj fields) =
      (match getKey fields "data" with
       | none => .error "KeyError: data"
       | some (.obj dfields) =>
         match getKey dfields "surahs" with
         | none => .error "KeyError: surahs"
         | some (.arr surahs) =>
           match mapE processSurah surahs with
           | .error e => .error e
           | .ok surahs' =>
             .ok (.obj (setKey fields "data"
               (.obj (setKey dfields "surahs" (.arr surahs')))))
         | some (.str []) => .ok (.obj fields)
         | some (.obj []) => .ok (.obj fields)
         | some _ => .error "TypeError: object is not iterable"
       | some _ => .error "TypeError: indices must be str") := rfl

theorem fixCorrectFile_data {f : List (String × JVal)} {df : List (String × JVal)}
    (hd : getKey f "data" = some (.obj df)) :
    fixCorrectFile (.obj f) =
      (match getKey df "surahs" with
       | none => .error "KeyError: surahs"
       | some (.arr surahs) =>
         match mapE processSurah surahs with
         | .error e => .error e
         | .ok surahs' =>
           .ok (.obj (setKey f "data" (.obj (setKey df "surahs" (.arr surahs')))))
       | some (.str []) => .ok (.obj f)
       | some (.obj []) => .ok (.obj f)
       | some _ => .error "TypeError: object is not iterable") := by
  rw [fixCorrectFile_obj, hd]

theorem fixHizb_arr (verses : List JVal) :
    fixHizb (.arr verses) =
      (match diagLoop verses with
       | .error e => .error e
       | .ok _ =>
         match hizbTransform verses with
         | .error e => .error e
         | .ok verses' => .ok (.arr verses')) := rfl

theorem processSurah_other {sf : List (String × JVal)} {v : JVal}
    (h : getKey sf "number" = some v) (h1 : v ≠ .num 1) (h2 : v ≠ .bool true) :
    processSurah (.obj sf) = processSurahAyahs sf := by
  have hdef : processSurah (.obj sf) =
      (match getKey sf "number" with
       | none => .error "KeyError: number"
       | some (.num 1) => .ok (.obj sf)
       | some (.bool true) => .ok (.obj sf)
       | some _ => processSurahAyahs sf) := rfl
  rw [hdef, h]
  split
  · rename_i heq
    simp at heq
  · rename_i heq
    exact absurd (Option.some.inj heq) h1
  · rename_i heq
    exact absurd (Option.some.inj heq) h2
  · rfl

/-- The range fix of `fix_hizb.py` never changes the hizbQuarter of a record
to anything but 3: a record of the output carrying a `number` in [33, 50]
carries hizbQuarter 3. -/
theorem processVerse_range_sets {a : JVal} {f : List (String × JVal)} {k : Int}
    (ha : processVerse a = .ok (.obj f))
    (hk : getKey f "number" = some (.num k)) (h33 : 33 ≤ k) (h50 : k ≤ 50) :
    getKey f "hizbQuarter" = some (.num 3) := by
  cases a with
  | obj f₀ =>
    rw [processVerse_obj] at ha
    cases hn : toIntLike ((getKey f₀ "number").getD (.num 0)) with
    | none =>
      rw [hn] at ha
      exact Except.noConfusion ha
    | some k₀ =>
      rw [hn] at ha
      replace ha : (if 33 ≤ k₀ ∧ k₀ ≤ 50 then
          Except.ok (JVal.obj (setKey f₀ "hizbQuarter" (JVal.num 3)))
        else Except.ok (JVal.obj f₀)) = Except.ok (JVal.obj f) := ha
      by_cases hr : 33 ≤ k₀ ∧ k₀ ≤ 50
      · rw [if_pos hr] at ha
        injection ha with ha'
        injection ha' with ha''
        rw [← ha'']
        exact getKey_setKey_self f₀ "hizbQuarter" (.num 3)
      · rw [if_neg hr] at ha
        injection ha with ha'
        injection ha' with ha''
        rw [← ha''] at hk
        rw [hk] at hn
        simp [toIntLike] at hn
        subst hn
        exact absurd ⟨h33, h50⟩ hr
  | null => exact Except.noConfusion ha
  | bool b => exact Except.noConfusion ha
  | num n => exact Except.noConfusion ha
  | str s => exact Except.noConfusion ha
  | arr l => exact Except.noConfusion ha

/-! ## Claim C1 -/

/-- C1 (confirmed): metadata range correctness.  A record whose `number` is
in the inclusive range [33, 50] has `hizbQuarter` set to the constant 3; a
record whose `number` is outside that range is returned unchanged; and the
record `{"number": 40, "hizbQuarter": 2}` becomes
`{"number": 40, "hizbQuarter": 3}`. -/
theorem claim_hizb_range :
    (∀ f k, getKey f "number" = some (.num k) →
      ((33 ≤ k ∧ k ≤ 50) →
        processVerse (.obj f) = .ok (.obj (setKey f "hizbQuarter" (.num 3))) ∧
        getKey (setKey f "hizbQuarter" (.num 3)) "hizbQuarter" = some (.num 3)) ∧
      (¬(33 ≤ k ∧ k ≤ 50) →
        processVerse (.obj f) = .ok (.obj f))) ∧
    processVerse (.obj [("number", .num 40), ("hizbQuarter", .num 2)]) =
      .ok (.obj [("number", .num 40), ("hizbQuarter", .num 3)]) := by
  refine ⟨?_, rfl⟩
  intro f k hk
  exact ⟨fun hr => ⟨processVerse_in hk hr, getKey_setKey_self f "hizbQuarter" (.num 3)⟩,
    fun hr => processVerse_out hk hr⟩

/-- Witness for C1 at the records `{"number": 34}` and `{"number": 51}`. -/
theorem claim_hizb_range_witness :
    processVerse (.obj [("number", .num 34)]) =
      .ok (.obj (setKey [("number", .num 34)] "hizbQuarter" (.num 3))) ∧
    processVerse (.obj [("number", .num 51)]) = .ok (.obj [("number", .num 51)]) :=
  ⟨((claim_hizb_range.1 [("number", .num 34)] 34 rfl).1 (by decide)).1,
   (claim_hizb_range.1 [("number", .num 51)] 51 rfl).2 (by decide)⟩

/-! ## Claim C9 -/

/-- C9 (confirmed): in `fix_hizb.py` every record-level read is a defaulted
`dict.get`.  A record without `number` is treated as number 0 and never
mutated; a record without `hizbQuarter` is skipped by the diagnostic loop;
a record without `numberInSurah` is treated as 0 there (no error, the loop
breaks); and a document of records missing every expected key runs the
whole script without aborting. -/
theorem claim_hizb_defaulted_lookups :
    (∀ f, getKey f "number" = none → processVerse (.obj f) = .ok (.obj f)) ∧
    (∀ f rest, getKey f "hizbQuarter" = none → diagLoop (.obj f :: rest) = diagLoop rest) ∧
    (∀ f rest, getKey f "hizbQuarter" = some (.num 3) →
      getKey f "number" = some (.num 40) → getKey f "numberInSurah" = none →
      diagLoop (.obj f :: rest) = .ok ()) ∧
    (∀ n, fixHizb (.arr (List.replicate n (.obj []))) =
      .ok (.arr (List.replicate n (.obj [])))) := by
  refine ⟨fun f h => processVerse_default h, ?_, ?_, ?_⟩
  · intro f rest h
    rw [diagLoop_cons, h]
  · intro f rest h3 hn hnis
    rw [diagLoop_cons, h3, hn, hnis]
    norm_num [toIntLike]
  · intro n
    have hd : diagLoop (List.replicate n (.obj [])) = .ok () := by
      induction n with
      | zero => rfl
      | succ m ih =>
        rw [List.replicate_succ, diagLoop_cons]
        simpa [getKey] using ih
    have ht : hizbTransform (List.replicate n (.obj [])) =
        .ok (List.replicate n (.obj [])) := by
      apply mapE_ok_id
      intro a ha
      have haeq : a = .obj [] := List.eq_of_mem_replicate ha
      subst haeq
      exact processVerse_default rfl
    rw [fixHizb_arr, hd, ht]

/-- Witness for C9 at a two-record document with empty records. -/
theorem claim_hizb_defaulted_lookups_witness :
    processVerse (.obj [("x", .null)]) = .ok (.obj [("x", .null)]) ∧
    fixHizb (.arr (List.replicate 2 (.obj []))) =
      .ok (.arr (List.replicate 2 (.obj []))) :=
  ⟨claim_hizb_defaulted_lookups.1 [("x", .null)] rfl,
   claim_hizb_defaulted_lookups.2.2.2 2⟩

/-! ## Claim C5 -/

/-- C5 counterexample: the claim says a document whose records miss the
expected keys aborts the run with an uncaught lookup error "for both the
text transform and the metadata transform".  The metadata transform on a
one-record document whose record has none of the expected keys does not
abort: it returns the document unchanged. -/
theorem claim_missing_key_abort_cex :
    fixHizb (.arr [.obj []]) = .ok (.arr [.obj []]) ∧
    isErr (fixHizb (.arr [.obj []])) = false := ⟨rfl, rfl⟩

/-- C5 (amended): missing expected keys abort the text transform with an
uncaught KeyError at each level of its traversal (`'data'`, `'surahs'`,
`'number'`, `'ayahs'`, `'text'`); the metadata transform's record-level
reads are defaulted `dict.get` calls, so a record missing every expected
key aborts nothing. -/
theorem claim_missing_key_abort :
    (∀ f, getKey f "data" = none → fixCorrectFile (.obj f) = .error "KeyError: data") ∧
    (∀ f df, getKey f "data" = some (.obj df) → getKey df "surahs" = none →
      fixCorrectFile (.obj f) = .error "KeyError: surahs") ∧
    (∀ sf, getKey sf "number" = none → processSurah (.obj sf) = .error "KeyError: number") ∧
    (∀ sf n, getKey sf "number" = some (.num n) → n ≠ 1 → getKey sf "ayahs" = none →
      processSurah (.obj sf) = .error "KeyError: ayahs") ∧
    (∀ af, getKey af "text" = none → processAyah (.obj af) = .error "KeyError: text") ∧
    (∀ f, getKey f "number" = none → getKey f "hizbQuarter" = none →
      getKey f "numberInSurah" = none →
      processVerse (.obj f) = .ok (.obj f) ∧ diagLoop [.obj f] = .ok ()) := by
  refine ⟨?_, ?_, ?_, ?_, fun af h => processAyah_missing h, ?_⟩
  · intro f h
    rw [fixCorrectFile_obj, h]
  · intro f df hd hs
    rw [fixCorrectFile_data hd, hs]
  · intro sf h
    have hdef : processSurah (.obj sf) =
        (match getKey sf "number" with
         | none => .error "KeyError: number"
         | some (.num 1) => .ok (.obj sf)
         | some (.bool true) => .ok (.obj sf)
         | some _ => processSurahAyahs sf) := rfl
    rw [hdef, h]
  · intro sf n h hn hays
    rw [processSurah_go h hn, processSurahAyahs_missing hays]
  · intro f h1 h2 h3
    refine ⟨processVerse_default h1, ?_⟩
    rw [diagLoop_cons, h2]
    rfl

/-- Witness for C5: each missing-key shape at a concrete record. -/
theorem claim_missing_key_abort_witness :
    fixCorrectFile (.obj [("x", .null)]) = .error "KeyError: data" ∧
    processSurah (.obj [("number", .num 2)]) = .error "KeyError: ayahs" ∧
    processAyah (.obj [("n", .num 7)]) = .error "KeyError: text" ∧
    processVerse (.obj [("k", .null)]) = .ok (.obj [("k", .null)]) :=
  ⟨claim_missing_key_abort.1 [("x", .null)] rfl,
   claim_missing_key_abort.2.2.2.1 [("number", .num 2)] 2 rfl (by decide) rfl,
   claim_missing_key_abort.2.2.2.2.1 [("n", .num 7)] rfl,
   (claim_missing_key_abort.2.2.2.2.2 [("k", .null)] rfl rfl rfl).1⟩

/-! ## Claim C7 -/

/-- C7 counterexample: the transform does not restore a monotone
`hizbQuarter` over the whole chapter range.  On a two-verse document with
numbers 40 and 51 the script outputs hizbQuarter 3 for verse 40 and leaves
hizbQuarter 1 on verse 51, a decreasing step. -/
theorem claim_hizb_monotone_cex :
    fixHizb (.arr [.obj [("number", .num 40), ("hizbQuarter", .num 2)],
                   .obj [("number", .num 51), ("hizbQuarter", .num 1)]]) =
      .ok (.arr [.obj [("number", .num 40), ("hizbQuarter", .num 3)],
                 .obj [("number", .num 51), ("hizbQuarter", .num 1)]]) ∧
    ((40 : Int) < 51 ∧ ¬((3 : Int) ≤ 1)) := ⟨rfl, by decide⟩

/-- C7 (amended): the fix loop makes `hizbQuarter` constant (equal to 3) on
every output record whose `number` lies in [33, 50]; hence `hizbQuarter` is
monotone between any two such records.  Outside [33, 50] the values are the
input's and no global monotonicity is guaranteed. -/
theorem claim_hizb_monotone :
    ∀ verses verses', hizbTransform verses = .ok verses' →
      (∀ v' ∈ verses', ∀ f k, v' = .obj f → getKey f "number" = some (.num k) →
        33 ≤ k → k ≤ 50 → getKey f "hizbQuarter" = some (.num 3)) ∧
      (∀ v₁ ∈ verses', ∀ v₂ ∈ verses', ∀ f₁ f₂ k₁ k₂ q₁ q₂,
        v₁ = .obj f₁ → v₂ = .obj f₂ →
        getKey f₁ "number" = some (.num k₁) → getKey f₂ "number" = some (.num k₂) →
        getKey f₁ "hizbQuarter" = some (.num q₁) →
        getKey f₂ "hizbQuarter" = some (.num q₂) →
        33 ≤ k₁ → k₁ ≤ k₂ → k₂ ≤ 50 → q₁ ≤ q₂) := by
  intro verses verses' h
  have hfirst : ∀ v' ∈ verses', ∀ f k, v' = .obj f → getKey f "number" = some (.num k) →
      33 ≤ k → k ≤ 50 → getKey f "hizbQuarter" = some (.num 3) := by
    intro v' hv f k hvf hk h33 h50
    obtain ⟨a, _, hfa⟩ := mapE_ok_mem h v' hv
    subst hvf
    exact processVerse_range_sets hfa hk h33 h50
  refine ⟨hfirst, ?_⟩
  intro v₁ hv₁ v₂ hv₂ f₁ f₂ k₁ k₂ q₁ q₂ he₁ he₂ hk₁ hk₂ hq₁ hq₂ h33 hle h50
  have e₁ := hfirst v₁ hv₁ f₁ k₁ he₁ hk₁ h33 (le_trans hle h50)
  have e₂ := hfirst v₂ hv₂ f₂ k₂ he₂ hk₂ (le_trans h33 hle) h50
  rw [hq₁] at e₁
  rw [hq₂] at e₂
  injection e₁ with e₁'
  injection e₂ with e₂'
  injection e₁' with e₁''
  injection e₂' with e₂''
  rw [e₁'', e₂'']

/-- Witness for C7 on a one-verse document with number 40. -/
theorem claim_hizb_monotone_witness :
    getKey (setKey [("number", .num 40), ("hizbQuarter", .num 2)]
      "hizbQuarter" (.num 3)) "hizbQuarter" = some (.num 3) :=
  (claim_hizb_monotone [.obj [("number", .num 40), ("hizbQuarter", .num 2)]]
      [.obj (setKey [("number", .num 40), ("hizbQuarter", .num 2)]
        "hizbQuarter" (.num 3))] rfl).1
    _ (List.mem_singleton.mpr rfl) _ 40 rfl rfl (by decide) (by decide)

/-! ## Claim C2 -/

/-- C2 counterexample: the claim says that for a non-first surah, a text
containing the basmala has the basmala absent after the transform.  On
`reformText` the single left-to-right deletion pass joins the surrounding
fragments into a new basmala occurrence: the output text is exactly the
basmala, which still contains the phrase. -/
theorem claim_basmala_scope_cex :
    processSurah (.obj [("number", .num 2),
        ("ayahs", .arr [.obj [("text", .str reformText)]])]) =
      .ok (.obj [("number", .num 2),
        ("ayahs", .arr [.obj [("text", .str basmala)]])]) ∧
    containsSub basmala reformText = true ∧
    containsSub basmala basmala = true := ⟨rfl, rfl, rfl⟩

/-- C2 (amended): surahs with `number` 1 are returned untouched; in any
other surah an ayah whose text contains the basmala gets its `text`
rewritten to the phrase-deleted and end-trimmed string and an ayah whose
text lacks the phrase is untouched; the phrase is absent afterwards
whenever the deletion pass itself leaves no occurrence (deletion may join
fragments of the surrounding text into a new occurrence, in which case the
phrase survives, as the counterexample shows). -/
theorem claim_basmala_scope :
    (∀ sf, getKey sf "number" = some (.num 1) → processSurah (.obj sf) = .ok (.obj sf)) ∧
    (∀ af t, getKey af "text" = some (.str t) → containsSub basmala t = true →
      processAyah (.obj af) = .ok (.obj (setKey af "text" (.str (fixAyahText t))))) ∧
    (∀ af t, getKey af "text" = some (.str t) → containsSub basmala t = false →
      processAyah (.obj af) = .ok (.obj af)) ∧
    (∀ t, containsSub basmala (removeAll basmala t) = false →
      containsSub basmala (fixAyahText t) = false) :=
  ⟨fun _ h => processSurah_skip h, fun _ _ h hb => processAyah_pos h hb,
   fun _ _ h hb => processAyah_neg h hb, fun _ h => containsSub_pyStrip h⟩

/-- Witness for C2 at concrete records. -/
theorem claim_basmala_scope_witness :
    processSurah (.obj [("number", .num 1)]) = .ok (.obj [("number", .num 1)]) ∧
    processAyah (.obj [("text", .str (basmala ++ " X".data))]) =
      .ok (.obj (setKey [("text", .str (basmala ++ " X".data))] "text"
        (.str (fixAyahText (basmala ++ " X".data))))) ∧
    processAyah (.obj [("text", .str "X".data)]) = .ok (.obj [("text", .str "X".data)]) ∧
    containsSub basmala (fixAyahText "X".data) = false :=
  ⟨claim_basmala_scope.1 _ rfl,
   claim_basmala_scope.2.1 _ _ rfl (by rfl),
   claim_basmala_scope.2.2.1 _ _ rfl (by rfl),
   claim_basmala_scope.2.2.2 "X".data (by rfl)⟩

/-! ## Claim C3 -/

/-- C3 (confirmed): in a surah with number ≠ 1, an ayah whose text contains
the basmala has its text replaced by exact substring removal of the phrase
followed by whitespace trimming; the surah loop is exactly the ayah loop
over `surah['ayahs']`; and the spec's scenario text (basmala followed by
`" قُلْ هُوَ..."`) yields `"قُلْ هُوَ..."`. -/
theorem claim_basmala_mutation :
    (∀ af t, getKey af "text" = some (.str t) → containsSub basmala t = true →
      processAyah (.obj af) =
        .ok (.obj (setKey af "text" (.str (pyStrip (removeAll basmala t)))))) ∧
    (∀ sf n ayahs, getKey sf "number" = some (.num n) → n ≠ 1 →
      getKey sf "ayahs" = some (.arr ayahs) →
      processSurah (.obj sf) =
        (match mapE processAyah ayahs with
         | .error e => .error e
         | .ok ayahs' => .ok (.obj (setKey sf "ayahs" (.arr ayahs'))))) ∧
    fixAyahText (basmala ++ " قُلْ هُوَ...".data) = "قُلْ هُوَ...".data := by
  refine ⟨fun af t h hb => processAyah_pos h hb, ?_, rfl⟩
  intro sf n ayahs h hn hays
  rw [processSurah_go h hn, processSurahAyahs_go hays]

/-- Witness for C3 at the spec's scenario text and a concrete surah. -/
theorem claim_basmala_mutation_witness :
    processAyah (.obj [("text", .str (basmala ++ " قُلْ هُوَ...".data))]) =
      .ok (.obj (setKey [("text", .str (basmala ++ " قُلْ هُوَ...".data))] "text"
        (.str (pyStrip (removeAll basmala (basmala ++ " قُلْ هُوَ...".data)))))) ∧
    processSurah (.obj [("number", .num 112), ("ayahs", .arr [])]) =
      (match mapE processAyah [] with
       | .error e => .error e
       | .ok ayahs' =>
         .ok (.obj (setKey [("number", .num 112), ("ayahs", .arr [])]
           "ayahs" (.arr ayahs')))) :=
  ⟨claim_basmala_mutation.1 _ _ rfl (by rfl),
   claim_basmala_mutation.2.1 _ 112 [] rfl (by decide) rfl⟩

/-! ## Claim C10 -/

/-- C10 counterexample: on `reformText2`, which contains the basmala twice,
the transform removes both scanned occurrences yet the output still
contains the basmala (the deletions join the surrounding fragments into a
new occurrence). -/
theorem claim_remove_all_cex :
    occCount basmala reformText2 = 2 ∧
    containsSub basmala (fixAyahText reformText2) = true := ⟨rfl, rfl⟩

/-- C10 (amended): the single pass removes every occurrence found by the
left-to-right non-overlapping scan, not only the first (after deleting one
occurrence the scan continues on the remainder); the phrase is absent from
the trimmed result whenever the deletion pass itself leaves no occurrence;
on a benign two-occurrence text both occurrences disappear. -/
theorem claim_remove_all :
    (∀ s, removeAll basmala (basmala ++ s) = removeAll basmala s) ∧
    (∀ t, containsSub basmala (removeAll basmala t) = false →
      containsSub basmala (pyStrip (removeAll basmala t)) = false) ∧
    (occCount basmala (basmala ++ " X ".data ++ basmala) = 2 ∧
      containsSub basmala (fixAyahText (basmala ++ " X ".data ++ basmala)) = false ∧
      fixAyahText (basmala ++ " X ".data ++ basmala) = "X".data) := by
  refine ⟨?_, fun t h => containsSub_pyStrip h, rfl, rfl, rfl⟩
  intro s
  exact removeAll_prepend basmala s (by decide)

/-- Witness for C10 at a concrete remainder text. -/
theorem claim_remove_all_witness :
    removeAll basmala (basmala ++ "A".data) = removeAll basmala "A".data ∧
    containsSub basmala (pyStrip (removeAll basmala "A".data)) = false :=
  ⟨claim_remove_all.1 "A".data, claim_remove_all.2.1 "A".data (by rfl)⟩

/-! ## Claim C6 -/

theorem processSurah_skip_bool {sfields : List (String × JVal)}
    (h : getKey sfields "number" = some (.bool true)) :
    processSurah (.obj sfields) = .ok (.obj sfields) := by
  have hdef : processSurah (.obj sfields) =
      (match getKey sfields "number" with
       | none => .error "KeyError: number"
       | some (.num 1) => .ok (.obj sfields)
       | some (.bool true) => .ok (.obj sfields)
       | some _ => processSurahAyahs sfields) := rfl
  rw [hdef, h]

theorem mapE_ok_get {f : JVal → Except String JVal} :
    ∀ {l l' : List JVal}, mapE f l = .ok l' →
      ∀ i (hi : i < l.length) (hi' : i < l'.length),
        f (l.get ⟨i, hi⟩) = .ok (l'.get ⟨i, hi'⟩) := by
  intro l
  induction l with
  | nil =>
    intro l' h i hi
    simp at hi
  | cons a rest ih =>
    intro l' h i hi hi'
    obtain ⟨b, l'', hfa, hml, rfl⟩ := mapE_cons_ok h
    cases i with
    | zero => simpa using hfa
    | succ j =>
      have hj : j < rest.length := by
        simp only [List.length_cons] at hi
        omega
      have hj' : j < l''.length := by
        simp only [List.length_cons] at hi'
        omega
      simpa using ih hml j hj hj'

theorem processVerse_frame {f : List (String × JVal)} {res : JVal}
    (h : processVerse (.obj f) = .ok res) :
    ∃ f', res = .obj f' ∧ ∀ key, key ≠ "hizbQuarter" → getKey f' key = getKey f key := by
  rw [processVerse_obj] at h
  cases hn : toIntLike ((getKey f "number").getD (.num 0)) with
  | none =>
    rw [hn] at h
    exact Except.noConfusion h
  | some k =>
    rw [hn] at h
    replace h : (if 33 ≤ k ∧ k ≤ 50 then
        Except.ok (JVal.obj (setKey f "hizbQuarter" (JVal.num 3)))
      else Except.ok (JVal.obj f)) = Except.ok res := h
    by_cases hk : 33 ≤ k ∧ k ≤ 50
    · rw [if_pos hk] at h
      injection h with h'
      exact ⟨_, h'.symm, fun key hkey => getKey_setKey_ne _ _ _ _ hkey⟩
    · rw [if_neg hk] at h
      injection h with h'
      exact ⟨f, h'.symm, fun _ _ => rfl⟩

theorem processAyah_frame {af : List (String × JVal)} {res : JVal}
    (h : processAyah (.obj af) = .ok res) :
    ∃ af', res = .obj af' ∧ ∀ key, key ≠ "text" → getKey af' key = getKey af key := by
  rw [processAyah_obj] at h
  cases ht : getKey af "text" with
  | none =>
    rw [ht] at h
    exact Except.noConfusion h
  | some v =>
    rw [ht] at h
    cases v with
    | str t =>
      replace h : (if containsSub basmala t then
          Except.ok (JVal.obj (setKey af "text" (.str (fixAyahText t))))
        else Except.ok (JVal.obj af)) = Except.ok res := h
      by_cases hb : containsSub basmala t = true
      · rw [if_pos hb] at h
        injection h with h'
        exact ⟨_, h'.symm, fun key hkey => getKey_setKey_ne _ _ _ _ hkey⟩
      · rw [if_neg hb] at h
        injection h with h'
        exact ⟨af, h'.symm, fun _ _ => rfl⟩
    | arr xs =>
      replace h : (if (xs.any fun v =>
            match v with | .str t => decide (t = basmala) | _ => false) then
          (Except.error "AttributeError: replace" : Except String JVal)
        else Except.ok (JVal.obj af)) = Except.ok res := h
      by_cases hx : (xs.any fun v =>
          match v with | .str t => decide (t = basmala) | _ => false) = true
      · rw [if_pos hx] at h
        exact Except.noConfusion h
      · rw [if_neg hx] at h
        injection h with h'
        exact ⟨af, h'.symm, fun _ _ => rfl⟩
    | obj fs =>
      replace h : (if (fs.any fun p => decide (p.1 = basmalaStr)) then
          (Except.error "AttributeError: replace" : Except String JVal)
        else Except.ok (JVal.obj af)) = Except.ok res := h
      by_cases hx : (fs.any fun p => decide (p.1 = basmalaStr)) = true
      · rw [if_pos hx] at h
        exact Except.noConfusion h
      · rw [if_neg hx] at h
        injection h with h'
        exact ⟨af, h'.symm, fun _ _ => rfl⟩
    | null => exact Except.noConfusion h
    | bool b => exact Except.noConfusion h
    | num n => exact Except.noConfusion h

theorem processSurahAyahs_frame {sf : List (String × JVal)} {res : JVal}
    (h : processSurahAyahs sf = .ok res) :
    ∃ sf', res = .obj sf' ∧ ∀ key, key ≠ "ayahs" → getKey sf' key = getKey sf key := by
  cases ha : getKey sf "ayahs" with
  | none =>
    rw [processSurahAyahs_missing ha] at h
    exact Except.noConfusion h
  | some v =>
    cases v with
    | arr ayahs =>
      rw [processSurahAyahs_go ha] at h
      cases hm : mapE processAyah ayahs with
      | error e =>
        rw [hm] at h
        exact Except.noConfusion h
      | ok ayahs' =>
        rw [hm] at h
        replace h : Except.ok (JVal.obj (setKey sf "ayahs" (.arr ayahs'))) =
            Except.ok res := h
        injection h with h'
        exact ⟨_, h'.symm, fun key hkey => getKey_setKey_ne _ _ _ _ hkey⟩
    | str t =>
      cases t with
      | nil =>
        have he : processSurahAyahs sf = .ok (.obj sf) := by
          unfold processSurahAyahs
          rw [ha]
        rw [he] at h
        injection h with h'
        exact ⟨sf, h'.symm, fun _ _ => rfl⟩
      | cons c cs =>
        have he : processSurahAyahs sf = .error "TypeError: object is not iterable" := by
          unfold processSurahAyahs
          rw [ha]
        rw [he] at h
        exact Except.noConfusion h
    | obj fs =>
      cases fs with
      | nil =>
        have he : processSurahAyahs sf = .ok (.obj sf) := by
          unfold processSurahAyahs
          rw [ha]
        rw [he] at h
        injection h with h'
        exact ⟨sf, h'.symm, fun _ _ => rfl⟩
      | cons p ps =>
        have he : processSurahAyahs sf = .error "TypeError: object is not iterable" := by
          unfold processSurahAyahs
          rw [ha]
        rw [he] at h
        exact Except.noConfusion h
    | null =>
      have he : processSurahAyahs sf = .error "TypeError: object is not iterable" := by
        unfold processSurahAyahs
        rw [ha]
      rw [he] at h
      exact Except.noConfusion h
    | bool b =>
      have he : processSurahAyahs sf = .error "TypeError: object is not iterable" := by
        unfold processSurahAyahs
        rw [ha]
      rw [he] at h
      exact Except.noConfusion h
    | num n =>
      have he : processSurahAyahs sf = .error "TypeError: object is not iterable" := by
        unfold processSurahAyahs
        rw [ha]
      rw [he] at h
      exact Except.noConfusion h

theorem processSurah_frame {sf : List (String × JVal)} {res : JVal}
    (h : processSurah (.obj sf) = .ok res) :
    ∃ sf', res = .obj sf' ∧ ∀ key, key ≠ "ayahs" → getKey sf' key = getKey sf key := by
  cases hn : getKey sf "number" with
  | none =>
    have hdef : processSurah (.obj sf) =
        (match getKey sf "number" with
         | none => .error "KeyError: number"
         | some (.num 1) => .ok (.obj sf)
         | some (.bool true) => .ok (.obj sf)
         | some _ => processSurahAyahs sf) := rfl
    rw [hdef, hn] at h
    exact Except.noConfusion h
  | some v =>
    by_cases h1 : v = .num 1
    · subst h1
      rw [processSurah_skip hn] at h
      injection h with h'
      exact ⟨sf, h'.symm, fun _ _ => rfl⟩
    · by_cases h2 : v = .bool true
      · subst h2
        rw [processSurah_skip_bool hn] at h
        injection h with h'
        exact ⟨sf, h'.symm, fun _ _ => rfl⟩
      · rw [processSurah_other hn h1 h2] at h
        exact processSurahAyahs_frame h

/-- C6 (confirmed): frame property.  A mutated verse record differs from
its input only at `hizbQuarter`; a mutated ayah record differs only at
`text`; a surah record differs only at `ayahs`; records not satisfying the
predicates are returned identically; and the loops preserve list length
and positional correspondence, so document order is preserved. -/
theorem claim_frame :
    (∀ f res, processVerse (.obj f) = .ok res →
      ∃ f', res = .obj f' ∧ ∀ key, key ≠ "hizbQuarter" → getKey f' key = getKey f key) ∧
    (∀ af res, processAyah (.obj af) = .ok res →
      ∃ af', res = .obj af' ∧ ∀ key, key ≠ "text" → getKey af' key = getKey af key) ∧
    (∀ sf res, processSurah (.obj sf) = .ok res →
      ∃ sf', res = .obj sf' ∧ ∀ key, key ≠ "ayahs" → getKey sf' key = getKey sf key) ∧
    (∀ f k, getKey f "number" = some (.num k) → ¬(33 ≤ k ∧ k ≤ 50) →
      processVerse (.obj f) = .ok (.obj f)) ∧
    (∀ af t, getKey af "text" = some (.str t) → containsSub basmala t = false →
      processAyah (.obj af) = .ok (.obj af)) ∧
    (∀ vs vs', hizbTransform vs = .ok vs' → vs'.length = vs.length ∧
      ∀ i (hi : i < vs.length) (hi' : i < vs'.length),
        processVerse (vs.get ⟨i, hi⟩) = .ok (vs'.get ⟨i, hi'⟩)) ∧
    (∀ ays ays', mapE processAyah ays = .ok ays' → ays'.length = ays.length) :=
  ⟨fun _ _ h => processVerse_frame h,
   fun _ _ h => processAyah_frame h,
   fun _ _ h => processSurah_frame h,
   fun _ _ hk hr => processVerse_out hk hr,
   fun _ _ ht hb => processAyah_neg ht hb,
   fun _ _ h => ⟨mapE_ok_length h, fun i hi hi' => mapE_ok_get h i hi hi'⟩,
   fun _ _ h => mapE_ok_length h⟩

/-- Witness for C6 at concrete records. -/
theorem claim_frame_witness :
    (∃ f', JVal.obj (setKey [("number", .num 40)] "hizbQuarter" (.num 3)) = .obj f' ∧
      ∀ key, key ≠ "hizbQuarter" → getKey f' key = getKey [("number", .num 40)] key) ∧
    processVerse (.obj [("number", .num 51)]) = .ok (.obj [("number", .num 51)]) ∧
    processAyah (.obj [("text", .str "X".data)]) = .ok (.obj [("text", .str "X".data)]) :=
  ⟨claim_frame.1 [("number", .num 40)] _ rfl,
   claim_frame.2.2.2.1 [("number", .num 51)] 51 rfl (by decide),
   claim_frame.2.2.2.2.1 [("text", .str "X".data)] "X".data rfl (by rfl)⟩

/-! ## Claim C4 -/

theorem processAyah_arr_neg {af : List (String × JVal)} {xs : List JVal}
    (ht : getKey af "text" = some (.arr xs))
    (hx : (xs.any fun v =>
      match v with | .str t => decide (t = basmala) | _ => false) = false) :
    processAyah (.obj af) = .ok (.obj af) := by
  rw [processAyah_obj, ht]
  show (if (xs.any fun v =>
      match v with | .str t => decide (t = basmala) | _ => false) then
    (Except.error "AttributeError: replace" : Except String JVal)
  else Except.ok (JVal.obj af)) = Except.ok (JVal.obj af)
  rw [hx]
  simp

theorem processAyah_dict_neg {af : List (String × JVal)} {fs : List (String × JVal)}
    (ht : getKey af "text" = some (.obj fs))
    (hx : (fs.any fun p => decide (p.1 = basmalaStr)) = false) :
    processAyah (.obj af) = .ok (.obj af) := by
  rw [processAyah_obj, ht]
  show (if (fs.any fun p => decide (p.1 = basmalaStr)) then
    (Except.error "AttributeError: replace" : Except String JVal)
  else Except.ok (JVal.obj af)) = Except.ok (JVal.obj af)
  rw [hx]
  simp

theorem cleanAyah_obj (af : List (String × JVal)) :
    cleanAyah (.obj af) =
      (match getKey af "text" with
       | some (.str t) => !containsSub basmala t
       | _ => true) := rfl

/-- If one pass of the ayah mutation produced `b` and `b`'s text is
basmala-free, a second pass leaves `b` untouched. -/
theorem processAyah_second {a b : JVal} (h : processAyah a = .ok b)
    (hc : cleanAyah b = true) : processAyah b = .ok b := by
  cases a with
  | obj af =>
    rw [processAyah_obj] at h
    cases ht : getKey af "text" with
    | none =>
      rw [ht] at h
      exact Except.noConfusion h
    | some v =>
      rw [ht] at h
      cases v with
      | str t =>
        replace h : (if containsSub basmala t then
            Except.ok (JVal.obj (setKey af "text" (.str (fixAyahText t))))
          else Except.ok (JVal.obj af)) = Except.ok b := h
        by_cases hb : containsSub basmala t = true
        · rw [if_pos hb] at h
          injection h with h'
          subst h'
          rw [cleanAyah_obj, getKey_setKey_self] at hc
          replace hc : (!containsSub basmala (fixAyahText t)) = true := hc
          have hcf : containsSub basmala (fixAyahText t) = false := by
            cases hval : containsSub basmala (fixAyahText t)
            · rfl
            · rw [hval] at hc
              cases hc
          exact processAyah_neg (getKey_setKey_self af "text" _) hcf
        · rw [if_neg hb] at h
          injection h with h'
          subst h'
          have hbf : containsSub basmala t = false := by
            cases hval : containsSub basmala t
            · rfl
            · exact absurd hval hb
          exact processAyah_neg ht hbf
      | arr xs =>
        replace h : (if (xs.any fun v =>
              match v with | .str t => decide (t = basmala) | _ => false) then
            (Except.error "AttributeError: replace" : Except String JVal)
          else Except.ok (JVal.obj af)) = Except.ok b := h
        by_cases hx : (xs.any fun v =>
            match v with | .str t => decide (t = basmala) | _ => false) = true
        · rw [if_pos hx] at h
          exact Except.noConfusion h
        · rw [if_neg hx] at h
          injection h with h'
          subst h'
          have hxf : (xs.any fun v =>
              match v with | .str t => decide (t = basmala) | _ => false) = false := by
            cases hval : (xs.any fun v =>
                match v with | .str t => decide (t = basmala) | _ => false)
            · rfl
            · exact absurd hval hx
          exact processAyah_arr_neg ht hxf
      | obj fs =>
        replace h : (if (fs.any fun p => decide (p.1 = basmalaStr)) then
            (Except.error "AttributeError: replace" : Except String JVal)
          else Except.ok (JVal.obj af)) = Except.ok b := h
        by_cases hx : (fs.any fun p => decide (p.1 = basmalaStr)) = true
        · rw [if_pos hx] at h
          exact Except.noConfusion h
        · rw [if_neg hx] at h
          injection h with h'
          subst h'
          have hxf : (fs.any fun p => decide (p.1 = basmalaStr)) = false := by
            cases hval : (fs.any fun p => decide (p.1 = basmalaStr))
            · rfl
            · exact absurd hval hx
          exact processAyah_dict_neg ht hxf
      | null => exact Except.noConfusion h
      | bool c => exact Except.noConfusion h
      | num n => exact Except.noConfusion h
  | null => exact Except.noConfusion h
  | bool c => exact Except.noConfusion h
  | num n => exact Except.noConfusion h
  | str s => exact Except.noConfusion h
  | arr l => exact Except.noConfusion h

theorem processSurahAyahs_str_nil {sf : List (String × JVal)}
    (h : getKey sf "ayahs" = some (.str [])) :
    processSurahAyahs sf = .ok (.obj sf) := by
  unfold processSurahAyahs
  rw [h]

theorem processSurahAyahs_obj_nil {sf : List (String × JVal)}
    (h : getKey sf "ayahs" = some (.obj [])) :
    processSurahAyahs sf = .ok (.obj sf) := by
  unfold processSurahAyahs
  rw [h]

theorem cleanSurah_other {sf : List (String × JVal)} {v : JVal}
    (h : getKey sf "number" = some v) (h1 : v ≠ .num 1) (h2 : v ≠ .bool true) :
    cleanSurah (.obj sf) =
      (match getKey sf "ayahs" with
       | some (.arr l) => l.all cleanAyah
       | _ => true) := by
  have hdef : cleanSurah (.obj sf) =
      (match getKey sf "number" with
       | some (.num 1) => true
       | some (.bool true) => true
       | _ =>
         match getKey sf "ayahs" with
         | some (.arr ayahs) => ayahs.all cleanAyah
         | _ => true) := rfl
  rw [hdef, h]
  split
  · rename_i heq
    exact absurd (Option.some.inj heq) h1
  · rename_i heq
    exact absurd (Option.some.inj heq) h2
  · rfl

/-- If one pass of the surah loop produced `b` and every ayah text of `b`
is basmala-free, a second pass leaves `b` untouched. -/
theorem processSurah_second {s b : JVal} (h : processSurah s = .ok b)
    (hc : cleanSurah b = true) : processSurah b = .ok b := by
  cases s with
  | obj sf =>
    cases hn : getKey sf "number" with
    | none =>
      have hdef : processSurah (.obj sf) =
          (match getKey sf "number" with
           | none => .error "KeyError: number"
           | some (.num 1) => .ok (.obj sf)
           | some (.bool true) => .ok (.obj sf)
           | some _ => processSurahAyahs sf) := rfl
      rw [hdef, hn] at h
      exact Except.noConfusion h
    | some v =>
      by_cases h1 : v = .num 1
      · subst h1
        rw [processSurah_skip hn] at h
        injection h with h'
        subst h'
        exact processSurah_skip hn
      · by_cases h2 : v = .bool true
        · subst h2
          rw [processSurah_skip_bool hn] at h
          injection h with h'
          subst h'
          exact processSurah_skip_bool hn
        · rw [processSurah_other hn h1 h2] at h
          cases ha : getKey sf "ayahs" with
          | none =>
            rw [processSurahAyahs_missing ha] at h
            exact Except.noConfusion h
          | some w =>
            cases w with
            | arr ayahs =>
              rw [processSurahAyahs_go ha] at h
              cases hm : mapE processAyah ayahs with
              | error e =>
                rw [hm] at h
                exact Except.noConfusion h
              | ok ayahs' =>
                rw [hm] at h
                replace h : Except.ok (JVal.obj (setKey sf "ayahs" (.arr ayahs'))) =
                    Except.ok b := h
                injection h with h'
                subst h'
                have hnum2 : getKey (setKey sf "ayahs" (.arr ayahs')) "number" = some v := by
                  rw [getKey_setKey_ne _ _ _ _
                    (by decide : ("number" : String) ≠ "ayahs")]
                  exact hn
                have hays2 : getKey (setKey sf "ayahs" (.arr ayahs')) "ayahs" =
                    some (.arr ayahs') := getKey_setKey_self _ _ _
                rw [processSurah_other hnum2 h1 h2, processSurahAyahs_go hays2]
                have hclean : ayahs'.all cleanAyah = true := by
                  rw [cleanSurah_other hnum2 h1 h2, hays2] at hc
                  exact hc
                have hsecond : mapE processAyah ayahs' = .ok ayahs' := by
                  apply mapE_ok_id
                  intro x hx
                  obtain ⟨a0, _, ha0⟩ := mapE_ok_mem hm x hx
                  exact processAyah_second ha0 (List.all_eq_true.mp hclean x hx)
                rw [hsecond]
                simp [setKey_setKey]
            | str t =>
              cases t with
              | nil =>
                rw [processSurahAyahs_str_nil ha] at h
                injection h with h'
                subst h'
                rw [processSurah_other hn h1 h2]
                exact processSurahAyahs_str_nil ha
              | cons c cs =>
                have he : processSurahAyahs sf =
                    .error "TypeError: object is not iterable" := by
                  unfold processSurahAyahs
                  rw [ha]
                rw [he] at h
                exact Except.noConfusion h
            | obj fs =>
              cases fs with
              | nil =>
                rw [processSurahAyahs_obj_nil ha] at h
                injection h with h'
                subst h'
                rw [processSurah_other hn h1 h2]
                exact processSurahAyahs_obj_nil ha
              | cons p ps =>
                have he : processSurahAyahs sf =
                    .error "TypeError: object is not iterable" := by
                  unfold processSurahAyahs
                  rw [ha]
                rw [he] at h
                exact Except.noConfusion h
            | null =>
              have he : processSurahAyahs sf =
                  .error "TypeError: object is not iterable" := by
                unfold processSurahAyahs
                rw [ha]
              rw [he] at h
              exact Except.noConfusion h
            | bool c =>
              have he : processSurahAyahs sf =
                  .error "TypeError: object is not iterable" := by
                unfold processSurahAyahs
                rw [ha]
              rw [he] at h
              exact Except.noConfusion h
            | num n =>
              have he : processSurahAyahs sf =
                  .error "TypeError: object is not iterable" := by
                unfold processSurahAyahs
                rw [ha]
              rw [he] at h
              exact Except.noConfusion h
  | null => exact Except.noConfusion h
  | bool c => exact Except.noConfusion h
  | num n => exact Except.noConfusion h
  | str t => exact Except.noConfusion h
  | arr l => exact Except.noConfusion h

theorem fixCorrectFile_calc {fields df : List (String × JVal)} {surahs : List JVal}
    (hd : getKey fields "data" = some (.obj df))
    (hs : getKey df "surahs" = some (.arr surahs)) :
    fixCorrectFile (.obj fields) =
      (match mapE processSurah surahs with
       | .error e => .error e
       | .ok surahs' =>
         .ok (.obj (setKey fields "data"
           (.obj (setKey df "surahs" (.arr surahs')))))) := by
  rw [fixCorrectFile_data hd, hs]

theorem fixCorrectFile_str_nil {fields df : List (String × JVal)}
    (hd : getKey fields "data" = some (.obj df))
    (hs : getKey df "surahs" = some (.str [])) :
    fixCorrectFile (.obj fields) = .ok (.obj fields) := by
  rw [fixCorrectFile_data hd, hs]

theorem fixCorrectFile_obj_nil {fields df : List (String × JVal)}
    (hd : getKey fields "data" = some (.obj df))
    (hs : getKey df "surahs" = some (.obj [])) :
    fixCorrectFile (.obj fields) = .ok (.obj fields) := by
  rw [fixCorrectFile_data hd, hs]

theorem cleanDoc_data {f df : List (String × JVal)}
    (hd : getKey f "data" = some (.obj df)) :
    cleanDoc (.obj f) =
      (match getKey df "surahs" with
       | some (.arr surahs) => surahs.all cleanSurah
       | _ => true) := by
  have hdef : cleanDoc (.obj f) =
      (match getKey f "data" with
       | some (.obj dfields) =>
         match getKey dfields "surahs" with
         | some (.arr surahs) => surahs.all cleanSurah
         | _ => true
       | _ => true) := rfl
  rw [hdef, hd]

/-- If one pass of `fix_correct_file.py` produced `d'` and every ayah text
of `d'` outside the first surah is basmala-free, a second pass returns `d'`
unchanged. -/
theorem fixCorrectFile_second {d d' : JVal} (h : fixCorrectFile d = .ok d')
    (hc : cleanDoc d' = true) : fixCorrectFile d' = .ok d' := by
  cases d with
  | obj fields =>
    cases hd : getKey fields "data" with
    | none =>
      rw [fixCorrectFile_obj, hd] at h
      exact Except.noConfusion h
    | some v =>
      cases v with
      | obj df =>
        cases hs : getKey df "surahs" with
        | none =>
          rw [fixCorrectFile_data hd, hs] at h
          exact Except.noConfusion h
        | some w =>
          cases w with
          | arr surahs =>
            rw [fixCorrectFile_calc hd hs] at h
            cases hm : mapE processSurah surahs with
            | error e =>
              rw [hm] at h
              exact Except.noConfusion h
            | ok surahs' =>
              rw [hm] at h
              replace h : Except.ok (JVal.obj (setKey fields "data"
                  (.obj (setKey df "surahs" (.arr surahs'))))) = Except.ok d' := h
              injection h with h'
              subst h'
              have hd2 : getKey (setKey fields "data"
                  (.obj (setKey df "surahs" (.arr surahs')))) "data" =
                  some (.obj (setKey df "surahs" (.arr surahs'))) :=
                getKey_setKey_self _ _ _
              have hs2 : getKey (setKey df "surahs" (.arr surahs')) "surahs" =
                  some (.arr surahs') := getKey_setKey_self _ _ _
              rw [fixCorrectFile_calc hd2 hs2]
              have hclean : surahs'.all cleanSurah = true := by
                rw [cleanDoc_data hd2, hs2] at hc
                exact hc
              have hsecond : mapE processSurah surahs' = .ok surahs' := by
                apply mapE_ok_id
                intro x hx
                obtain ⟨a0, _, ha0⟩ := mapE_ok_mem hm x hx
                exact processSurah_second ha0 (List.all_eq_true.mp hclean x hx)
              rw [hsecond]
              simp [setKey_setKey]
          | str t =>
            cases t with
            | nil =>
              rw [fixCorrectFile_str_nil hd hs] at h
              injection h with h'
              subst h'
              exact fixCorrectFile_str_nil hd hs
            | cons c cs =>
              rw [fixCorrectFile_data hd, hs] at h
              exact Except.noConfusion h
          | obj fs =>
            cases fs with
            | nil =>
              rw [fixCorrectFile_obj_nil hd hs] at h
              injection h with h'
              subst h'
              exact fixCorrectFile_obj_nil hd hs
            | cons p ps =>
              rw [fixCorrectFile_data hd, hs] at h
              exact Except.noConfusion h
          | null =>
            rw [fixCorrectFile_data hd, hs] at h
            exact Except.noConfusion h
          | bool c =>
            rw [fixCorrectFile_data hd, hs] at h
            exact Except.noConfusion h
          | num n =>
            rw [fixCorrectFile_data hd, hs] at h
            exact Except.noConfusion h
      | null =>
        rw [fixCorrectFile_obj, hd] at h
        exact Except.noConfusion h
      | bool c =>
        rw [fixCorrectFile_obj, hd] at h
        exact Except.noConfusion h
      | num n =>
        rw [fixCorrectFile_obj, hd] at h
        exact Except.noConfusion h
      | str t =>
        rw [fixCorrectFile_obj, hd] at h
        exact Except.noConfusion h
      | arr l =>
        rw [fixCorrectFile_obj, hd] at h
        exact Except.noConfusion h
  | null => exact Except.noConfusion h
  | bool c => exact Except.noConfusion h
  | num n => exact Except.noConfusion h
  | str t => exact Except.noConfusion h
  | arr l => exact Except.noConfusion h

/-- C4 counterexample: applying the text transform twice is not the same
as applying it once.  On `reformDoc` the first pass rewrites the ayah text
to exactly the basmala (deletion re-forms the phrase), so the second
pass's predicate matches again and empties the text: the two outputs
differ. -/
theorem claim_idempotence_cex :
    fixCorrectFile reformDoc = .ok reformDoc1 ∧
    fixCorrectFile reformDoc1 = .ok reformDoc2 ∧
    firstAyahText reformDoc1 = some (.str basmala) ∧
    firstAyahText reformDoc2 = some (.str []) ∧
    reformDoc1 ≠ reformDoc2 := by
  refine ⟨rfl, rfl, rfl, rfl, ?_⟩
  intro h
  have h2 := congrArg firstAyahText h
  rw [show firstAyahText reformDoc1 = some (.str basmala) from rfl,
    show firstAyahText reformDoc2 = some (.str ([] : List Char)) from rfl] at h2
  injection h2 with h3
  injection h3 with h4
  exact absurd h4 (by decide)

/-- C4 (amended): re-running the metadata fix loop on its own output is a
no-op; re-running the text transform on its own output is a no-op provided
the first pass left no basmala occurrence in any non-first-surah text (by
construction of the predicate this is the generic case, but deletion can
re-form the phrase, as the counterexample shows, so it is a proviso and
not a theorem of all documents). -/
theorem claim_idempotence :
    (∀ d d', fixCorrectFile d = .ok d' → cleanDoc d' = true →
      fixCorrectFile d' = .ok d') ∧
    (∀ vs vs', hizbTransform vs = .ok vs' → hizbTransform vs' = .ok vs') :=
  ⟨fun _ _ h hc => fixCorrectFile_second h hc, fun _ _ h => hizbTransform_idem h⟩

/-- Witness for C4: the second output of the counterexample chain is a
fixed point of the text transform, and the metadata fix loop is idempotent
on a concrete one-verse document. -/
theorem claim_idempotence_witness :
    fixCorrectFile reformDoc2 = .ok reformDoc2 ∧
    hizbTransform [.obj (setKey [("number", .num 40)] "hizbQuarter" (.num 3))] =
      .ok [.obj (setKey [("number", .num 40)] "hizbQuarter" (.num 3))] :=
  ⟨claim_idempotence.1 reformDoc1 reformDoc2 rfl (by rfl),
   claim_idempotence.2 [.obj [("number", .num 40)]]
     [.obj (setKey [("number", .num 40)] "hizbQuarter" (.num 3))] rfl⟩

/-! ## Lemmas: whitespace, digits and string escapes -/

theorem skipWs_ws_append {ws : List Char} (x : List Char)
    (h : ws.all isWsChar = true) : skipWs (ws ++ x) = skipWs x := by
  induction ws with
  | nil => rfl
  | cons c cs ih =>
    rw [List.all_cons, Bool.and_eq_true_iff] at h
    show List.dropWhile isWsChar (c :: (cs ++ x)) = skipWs x
    rw [List.dropWhile_cons, if_pos h.1]
    exact ih h.2

theorem skipWs_cons_nonws {c : Char} (x : List Char) (h : isWsChar c = false) :
    skipWs (c :: x) = c :: x := by
  show List.dropWhile isWsChar (c :: x) = c :: x
  rw [List.dropWhile_cons, h]
  simp

theorem spaces_all_ws (n : Nat) : (spaces n).all isWsChar = true := by
  rw [List.all_eq_true]
  intro c hc
  have : c = ' ' := List.eq_of_mem_replicate hc
  subst this
  rfl

theorem skipWs_indent {x : List Char} (ind : Nat) :
    skipWs ('\n' :: (spaces ind ++ x)) = skipWs x := by
  have h : (('\n' :: spaces ind).all isWsChar) = true := by
    rw [List.all_cons, Bool.and_eq_true_iff]
    exact ⟨rfl, spaces_all_ws ind⟩
  calc skipWs ('\n' :: (spaces ind ++ x))
      = skipWs (('\n' :: spaces ind) ++ x) := rfl
    _ = skipWs x := skipWs_ws_append x h

theorem hexVal_hexDigit {d : Nat} (h : d < 16) : hexVal (hexDigit d) = some d := by
  interval_cases d <;> decide

theorem digitChar_isDigit {d : Nat} (h : d < 10) : (digitChar d).isDigit = true := by
  interval_cases d <;> decide

theorem digitChar_toNat {d : Nat} (h : d < 10) : (digitChar d).toNat = 48 + d := by
  interval_cases d <;> decide

/-- The digit run parser on a printed digit string (most significant
first), with an accumulator. -/
theorem parseNatAcc_digits :
    ∀ (ds : List Nat) (acc : Nat) (rest : List Char),
      (∀ d ∈ ds, d < 10) →
      (match rest with | [] => True | c :: _ => c.isDigit = false) →
      parseNatAcc acc (ds.map digitChar ++ rest) =
        (acc * 10 ^ ds.length + Nat.ofDigits 10 ds.reverse, rest) := by
  intro ds
  induction ds with
  | nil =>
    intro acc rest _ hrest
    cases rest with
    | nil => simp [parseNatAcc, Nat.ofDigits]
    | cons c cr =>
      simp only [List.map_nil, List.nil_append]
      show parseNatAcc acc (c :: cr) = _
      unfold parseNatAcc
      rw [if_neg (by simp [hrest])]
      simp [Nat.ofDigits]
  | cons d ds ih =>
    intro acc rest hds hrest
    have hd : d < 10 := hds d (by simp)
    simp only [List.map_cons, List.cons_append]
    show parseNatAcc acc (digitChar d :: (ds.map digitChar ++ rest)) = _
    unfold parseNatAcc
    rw [if_pos (digitChar_isDigit hd), digitChar_toNat hd]
    rw [ih (acc * 10 + (48 + d - 48)) rest (fun x hx => hds x (by simp [hx])) hrest]
    have harith : 48 + d - 48 = d := by omega
    rw [harith]
    congr 1
    rw [List.reverse_cons, Nat.ofDigits_append]
    simp only [List.length_cons, List.length_reverse, Nat.ofDigits_singleton]
    ring

theorem serNat_ne_nil (n : Nat) : serNat n ≠ [] := by
  unfold serNat
  by_cases h : n = 0
  · simp [h]
  · rw [if_neg h]
    intro hc
    rw [List.map_eq_nil_iff, List.reverse_eq_nil_iff] at hc
    exact absurd hc (Nat.digits_ne_nil_iff_ne_zero.mpr h)

/-- Parsing the printed decimal of `n` yields `n` back. -/
theorem parseNatAcc_serNat (n : Nat) (rest : List Char)
    (hrest : (match rest with | [] => True | c :: _ => c.isDigit = false)) :
    parseNatAcc 0 (serNat n ++ rest) = (n, rest) := by
  unfold serNat
  by_cases h : n = 0
  · subst h
    rw [if_pos rfl]
    have h0 : ([0].map digitChar) = ['0'] := by decide
    have := parseNatAcc_digits [0] 0 rest (by simp) hrest
    rw [h0] at this
    simpa [Nat.ofDigits] using this
  · rw [if_neg h]
    have hds : ∀ d ∈ (Nat.digits 10 n).reverse, d < 10 := by
      intro d hd
      rw [List.mem_reverse] at hd
      exact Nat.digits_lt_base (by norm_num) hd
    have := parseNatAcc_digits (Nat.digits 10 n).reverse 0 rest hds hrest
    rw [this, List.reverse_reverse, Nat.ofDigits_digits]
    simp

theorem parseStrBodyF_u (f : Nat) (a b : Nat) (ha : a < 16) (hb : b < 16)
    (tail : List Char) :
    parseStrBodyF (f + 1)
        ('\\' :: 'u' :: '0' :: '0' :: hexDigit a :: hexDigit b :: tail) =
      (parseStrBodyF f tail).map (fun p => (Char.ofNat (a * 16 + b) :: p.1, p.2)) := by
  show (match hexVal '0', hexVal '0', hexVal (hexDigit a), hexVal (hexDigit b) with
    | some x, some y, some z, some w =>
      (parseStrBodyF f tail).map (fun p =>
        (Char.ofNat (((x * 16 + y) * 16 + z) * 16 + w) :: p.1, p.2))
    | _, _, _, _ => none) =
      (parseStrBodyF f tail).map (fun p => (Char.ofNat (a * 16 + b) :: p.1, p.2))
  rw [hexVal_hexDigit ha, hexVal_hexDigit hb]
  show (parseStrBodyF f tail).map (fun p =>
      (Char.ofNat (((0 * 16 + 0) * 16 + a) * 16 + b) :: p.1, p.2)) = _
  simp only [Nat.zero_mul, Nat.zero_add]

/-- Decoding inverts the escape-encoding of a string body. -/
theorem parseStrBodyF_roundtrip :
    ∀ (fuel : Nat) (s rest : List Char),
      ((s.map escChar).flatten ++ '"' :: rest).length ≤ fuel →
      parseStrBodyF fuel ((s.map escChar).flatten ++ '"' :: rest) = some (s, rest) := by
  intro fuel
  induction fuel with
  | zero =>
    intro s rest h
    rw [List.length_append, List.length_cons] at h
    omega
  | succ f ih =>
    intro s rest h
    cases s with
    | nil =>
      show parseStrBodyF (f + 1) ('"' :: rest) = some ([], rest)
      rfl
    | cons c cs =>
      simp only [List.map_cons, List.flatten_cons, List.append_assoc] at h ⊢
      by_cases h1 : c = '"'
      · subst h1
        have hesc : escChar '"' = ['\\', '"'] := by decide
        rw [hesc] at h ⊢
        have hstep : parseStrBodyF (f + 1)
            ((['\\', '"'] : List Char) ++ ((cs.map escChar).flatten ++ '"' :: rest)) =
            (parseStrBodyF f ((cs.map escChar).flatten ++ '"' :: rest)).map
              (fun p => ('"' :: p.1, p.2)) := rfl
        rw [hstep, ih cs rest (by simp at h ⊢; omega)]
        rfl
      · by_cases h2 : c = '\\'
        · subst h2
          have hesc : escChar '\\' = ['\\', '\\'] := by decide
          rw [hesc] at h ⊢
          have hstep : parseStrBodyF (f + 1)
              ((['\\', '\\'] : List Char) ++ ((cs.map escChar).flatten ++ '"' :: rest)) =
              (parseStrBodyF f ((cs.map escChar).flatten ++ '"' :: rest)).map
                (fun p => ('\\' :: p.1, p.2)) := rfl
          rw [hstep, ih cs rest (by simp at h ⊢; omega)]
          rfl
        · by_cases h3 : c = '\n'
          · subst h3
            have hesc : escChar '\n' = ['\\', 'n'] := by decide
            rw [hesc] at h ⊢
            have hstep : parseStrBodyF (f + 1)
                ((['\\', 'n'] : List Char) ++ ((cs.map escChar).flatten ++ '"' :: rest)) =
                (parseStrBodyF f ((cs.map escChar).flatten ++ '"' :: rest)).map
                  (fun p => ('\n' :: p.1, p.2)) := rfl
            rw [hstep, ih cs rest (by simp at h ⊢; omega)]
            rfl
          · by_cases h4 : c = '\t'
            · subst h4
              have hesc : escChar '\t' = ['\\', 't'] := by decide
              rw [hesc] at h ⊢
              have hstep : parseStrBodyF (f + 1)
                  ((['\\', 't'] : List Char) ++ ((cs.map escChar).flatten ++ '"' :: rest)) =
                  (parseStrBodyF f ((cs.map escChar).flatten ++ '"' :: rest)).map
                    (fun p => ('\t' :: p.1, p.2)) := rfl
              rw [hstep, ih cs rest (by simp at h ⊢; omega)]
              rfl
            · by_cases h5 : c = '\r'
              · subst h5
                have hesc : escChar '\r' = ['\\', 'r'] := by decide
                rw [hesc] at h ⊢
                have hstep : parseStrBodyF (f + 1)
                    ((['\\', 'r'] : List Char) ++
                      ((cs.map escChar).flatten ++ '"' :: rest)) =
                    (parseStrBodyF f ((cs.map escChar).flatten ++ '"' :: rest)).map
                      (fun p => ('\r' :: p.1, p.2)) := rfl
                rw [hstep, ih cs rest (by simp at h ⊢; omega)]
                rfl
              · by_cases h6 : c = Char.ofNat 8
                · subst h6
                  have hesc : escChar (Char.ofNat 8) = ['\\', 'b'] := by decide
                  rw [hesc] at h ⊢
                  have hstep : parseStrBodyF (f + 1)
                      ((['\\', 'b'] : List Char) ++
                        ((cs.map escChar).flatten ++ '"' :: rest)) =
                      (parseStrBodyF f ((cs.map escChar).flatten ++ '"' :: rest)).map
                        (fun p => (Char.ofNat 8 :: p.1, p.2)) := rfl
                  rw [hstep, ih cs rest (by simp at h ⊢; omega)]
                  rfl
                · by_cases h7 : c = Char.ofNat 12
                  · subst h7
                    have hesc : escChar (Char.ofNat 12) = ['\\', 'f'] := by decide
                    rw [hesc] at h ⊢
                    have hstep : parseStrBodyF (f + 1)
                        ((['\\', 'f'] : List Char) ++
                          ((cs.map escChar).flatten ++ '"' :: rest)) =
                        (parseStrBodyF f ((cs.map escChar).flatten ++ '"' :: rest)).map
                          (fun p => (Char.ofNat 12 :: p.1, p.2)) := rfl
                    rw [hstep, ih cs rest (by simp at h ⊢; omega)]
                    rfl
                  · by_cases h8 : c.toNat < 32
                    · have hesc : escChar c = ['\\', 'u', '0', '0',
                          hexDigit (c.toNat / 16), hexDigit (c.toNat % 16)] := by
                        unfold escChar
                        rw [if_neg h1, if_neg h2, if_neg h3, if_neg h4, if_neg h5,
                          if_neg h6, if_neg h7, if_pos h8]
                      rw [hesc] at h ⊢
                      have ha : c.toNat / 16 < 16 := by omega
                      have hb : c.toNat % 16 < 16 := by omega
                      rw [show (['\\', 'u', '0', '0', hexDigit (c.toNat / 16),
                          hexDigit (c.toNat % 16)] : List Char) ++
                          ((cs.map escChar).flatten ++ '"' :: rest) =
                        '\\' :: 'u' :: '0' :: '0' :: hexDigit (c.toNat / 16) ::
                          hexDigit (c.toNat % 16) ::
                          ((cs.map escChar).flatten ++ '"' :: rest) from rfl]
                      rw [parseStrBodyF_u f _ _ ha hb,
                        ih cs rest (by simp at h ⊢; omega)]
                      have hcn : c.toNat / 16 * 16 + c.toNat % 16 = c.toNat := by omega
                      simp [hcn, Char.ofNat_toNat]
                    · have hesc : escChar c = [c] := by
                        unfold escChar
                        rw [if_neg h1, if_neg h2, if_neg h3, if_neg h4, if_neg h5,
                          if_neg h6, if_neg h7, if_neg h8]
                      rw [hesc] at h ⊢
                      rw [show ([c] : List Char) ++
                          ((cs.map escChar).flatten ++ '"' :: rest) =
                        c :: ((cs.map escChar).flatten ++ '"' :: rest) from rfl]
                      show (if c = '"' then
                          some ([], (cs.map escChar).flatten ++ '"' :: rest)
                        else if c = '\\' then
                          (match (cs.map escChar).flatten ++ '"' :: rest with
                           | e :: r₂ =>
                             if e = '"' then
                               (parseStrBodyF f r₂).map (fun p => ('"' :: p.1, p.2))
                             else if e = '\\' then
                               (parseStrBodyF f r₂).map (fun p => ('\\' :: p.1, p.2))
                             else if e = '/' then
                               (parseStrBodyF f r₂).map (fun p => ('/' :: p.1, p.2))
                             else if e = 'n' then
                               (parseStrBodyF f r₂).map (fun p => ('\n' :: p.1, p.2))
                             else if e = 't' then
                               (parseStrBodyF f r₂).map (fun p => ('\t' :: p.1, p.2))
                             else if e = 'r' then
                               (parseStrBodyF f r₂).map (fun p => ('\r' :: p.1, p.2))
                             else if e = 'b' then
                               (parseStrBodyF f r₂).map
                                 (fun p => (Char.ofNat 8 :: p.1, p.2))
                             else if e = 'f' then
                               (parseStrBodyF f r₂).map
                                 (fun p => (Char.ofNat 12 :: p.1, p.2))
                             else if e = 'u' then
                               (match r₂ with
                                | h₁ :: h₂ :: h₃ :: h₄ :: r₃ =>
                                  (match hexVal h₁, hexVal h₂, hexVal h₃, hexVal h₄ with
                                   | some a, some b, some c', some d =>
                                     (parseStrBodyF f r₃).map (fun p =>
                                       (Char.ofNat
                                         (((a * 16 + b) * 16 + c') * 16 + d) ::
                                         p.1, p.2))
                                   | _, _, _, _ => none)
                                | _ => none)
                             else none
                           | [] => none)
                        else if c.toNat < 32 then none
                        else (parseStrBodyF f
                            ((cs.map escChar).flatten ++ '"' :: rest)).map
                          (fun p => (c :: p.1, p.2))) = some (c :: cs, rest)
                      rw [if_neg h1, if_neg h2, if_neg h8,
                        ih cs rest (by simp at h ⊢; omega)]
                      rfl

/-- Specialization to the exact-length fuel used by `parseStrBody`. -/
theorem parseStrBody_roundtrip (s rest : List Char) :
    parseStrBody ((s.map escChar).flatten ++ '"' :: rest) = some (s, rest) :=
  parseStrBodyF_roundtrip _ s rest (le_refl _)

theorem serNat_head (n : Nat) : ∃ c t, serNat n = c :: t ∧ c.isDigit = true := by
  unfold serNat
  by_cases h : n = 0
  · subst h
    exact ⟨'0', [], by rw [if_pos rfl], by decide⟩
  · rw [if_neg h]
    cases hds : (Nat.digits 10 n).reverse with
    | nil =>
      exfalso
      rw [List.reverse_eq_nil_iff] at hds
      exact absurd hds (Nat.digits_ne_nil_iff_ne_zero.mpr h)
    | cons d ds =>
      refine ⟨digitChar d, ds.map digitChar, by simp [hds], ?_⟩
      apply digitChar_isDigit
      have hd : d ∈ Nat.digits 10 n := by
        rw [← List.mem_reverse, hds]
        simp
      exact Nat.digits_lt_base (by norm_num) hd

theorem isDigit_not_ws {c : Char} (h : c.isDigit = true) : isWsChar c = false := by
  cases hw : isWsChar c with
  | false => rfl
  | true =>
    exfalso
    simp only [isWsChar, Bool.or_eq_true, beq_iff_eq] at hw
    rcases hw with (((rfl | rfl) | rfl) | rfl) <;> exact absurd h (by decide)

theorem isDigit_facts {c : Char} (h : c.isDigit = true) :
    ¬(c = lbrace) ∧ ¬(c = '[') ∧ ¬(c = '"') ∧ ¬(c = 'n') ∧ ¬(c = 't') ∧
      ¬(c = 'f') ∧ ¬(c = '-') ∧ ¬(c = ']') ∧ ¬(c = rbrace) ∧ ¬(c = ',') ∧
      ¬(c = ':') :=
  ⟨fun he => absurd (he ▸ h) (by decide), fun he => absurd (he ▸ h) (by decide),
   fun he => absurd (he ▸ h) (by decide), fun he => absurd (he ▸ h) (by decide),
   fun he => absurd (he ▸ h) (by decide), fun he => absurd (he ▸ h) (by decide),
   fun he => absurd (he ▸ h) (by decide), fun he => absurd (he ▸ h) (by decide),
   fun he => absurd (he ▸ h) (by decide), fun he => absurd (he ▸ h) (by decide),
   fun he => absurd (he ▸ h) (by decide)⟩

/-- Every serialized value starts with a visible character that is not a
closing delimiter or separator. -/
theorem serVal_shape (ind : Nat) (v : JVal) :
    ∃ c t, serVal ind v = c :: t ∧ isWsChar c = false ∧ ¬(c = ']') ∧
      ¬(c = rbrace) ∧ ¬(c = ',') := by
  cases v with
  | null => exact ⟨'n', _, rfl, by decide, by decide, by decide, by decide⟩
  | bool b =>
    cases b with
    | false => exact ⟨'f', _, rfl, by decide, by decide, by decide, by decide⟩
    | true => exact ⟨'t', _, rfl, by decide, by decide, by decide, by decide⟩
  | num n =>
    cases n with
    | ofNat m =>
      obtain ⟨c, t, hser, hdig⟩ := serNat_head m
      obtain ⟨_, _, _, _, _, _, _, h8, h9, h10, _⟩ := isDigit_facts hdig
      exact ⟨c, t, hser, isDigit_not_ws hdig, h8, h9, h10⟩
    | negSucc m =>
      exact ⟨'-', _, rfl, by decide, by decide, by decide, by decide⟩
  | str s => exact ⟨'"', _, rfl, by decide, by decide, by decide, by decide⟩
  | arr l =>
    cases l with
    | nil => exact ⟨'[', _, rfl, by decide, by decide, by decide, by decide⟩
    | cons v vs => exact ⟨'[', _, rfl, by decide, by decide, by decide, by decide⟩
  | obj ms =>
    cases ms with
    | nil => exact ⟨lbrace, _, rfl, by decide, by decide, by decide, by decide⟩
    | cons m mrest => exact ⟨lbrace, _, rfl, by decide, by decide, by decide, by decide⟩

theorem WFb_mono :
    ∀ fuel, (∀ v, WFbFuel fuel v = true → WFbFuel (fuel + 1) v = true) ∧
      (∀ l, WFbItems fuel l = true → WFbItems (fuel + 1) l = true) ∧
      (∀ ms, WFbMembs fuel ms = true → WFbMembs (fuel + 1) ms = true) := by
  intro fuel
  induction fuel with
  | zero =>
    refine ⟨fun v h => ?_, fun l h => ?_, fun ms h => ?_⟩ <;>
      simp [WFbFuel, WFbItems, WFbMembs] at h
  | succ f ih =>
    refine ⟨fun v h => ?_, fun l h => ?_, fun ms h => ?_⟩
    · cases v with
      | arr l => exact ih.2.1 l h
      | obj ms =>
        rw [show WFbFuel (f + 1 + 1) (.obj ms) =
          (keysDistinct ms && WFbMembs (f + 1) ms) from rfl]
        rw [show WFbFuel (f + 1) (.obj ms) =
          (keysDistinct ms && WFbMembs f ms) from rfl] at h
        rcases Bool.and_eq_true_iff.mp h with ⟨h1, h2⟩
        rw [h1, ih.2.2 ms h2]
        rfl
      | null => rfl
      | bool b => rfl
      | num n => rfl
      | str s => rfl
    · cases l with
      | nil => rfl
      | cons v vs =>
        rw [show WFbItems (f + 1) (v :: vs) =
          (WFbFuel f v && WFbItems f vs) from rfl] at h
        rcases Bool.and_eq_true_iff.mp h with ⟨h1, h2⟩
        rw [show WFbItems (f + 1 + 1) (v :: vs) =
          (WFbFuel (f + 1) v && WFbItems (f + 1) vs) from rfl]
        rw [ih.1 v h1, ih.2.1 vs h2]
        rfl
    · cases ms with
      | nil => rfl
      | cons m mrest =>
        rw [show WFbMembs (f + 1) (m :: mrest) =
          (WFbFuel f m.2 && WFbMembs f mrest) from rfl] at h
        rcases Bool.and_eq_true_iff.mp h with ⟨h1, h2⟩
        rw [show WFbMembs (f + 1 + 1) (m :: mrest) =
          (WFbFuel (f + 1) m.2 && WFbMembs (f + 1) mrest) from rfl]
        rw [ih.1 m.2 h1, ih.2.2 mrest h2]
        rfl

theorem setKey_absent {o : List (String × JVal)} {k : String} (v : JVal)
    (h : (o.any fun p => decide (p.1 = k)) = false) :
    setKey o k v = o ++ [(k, v)] := by
  induction o with
  | nil => rfl
  | cons p rest ih =>
    rw [List.any_cons, Bool.or_eq_false_iff] at h
    obtain ⟨h1, h2⟩ := h
    have hne : ¬(p.1 = k) := by simpa using h1
    obtain ⟨k₀, v₀⟩ := p
    rw [setKey_cons_ne _ _ _ _ _ hne, ih h2]
    rfl

theorem collapseMembs_aux :
    ∀ (l acc : List (String × JVal)),
      keysDistinct l = true →
      (∀ m ∈ l, (acc.any fun p => decide (p.1 = m.1)) = false) →
      l.foldl (fun acc m => setKey acc m.1 m.2) acc = acc ++ l := by
  intro l
  induction l with
  | nil =>
    intro acc _ _
    simp
  | cons m ms ih =>
    intro acc hdist hfresh
    obtain ⟨k, v⟩ := m
    rw [List.foldl_cons]
    have habs : (acc.any fun p => decide (p.1 = k)) = false := hfresh (k, v) (by simp)
    rw [setKey_absent v habs]
    have hd : keysDistinct ((k, v) :: ms) =
        ((!(ms.any fun p => decide (p.1 = k))) && keysDistinct ms) := rfl
    rw [hd] at hdist
    rcases Bool.and_eq_true_iff.mp hdist with ⟨hnk, hdist'⟩
    rw [Bool.not_eq_true'] at hnk
    rw [ih (acc ++ [(k, v)]) hdist' ?_]
    · rw [List.append_assoc]
      rfl
    · intro m' hm'
      rw [List.any_append, Bool.or_eq_false_iff]
      refine ⟨hfresh m' (by simp [hm']), ?_⟩
      have hne : ¬(m'.1 = k) := by
        intro he
        have : ms.any (fun p => decide (p.1 = k)) = true :=
          List.any_eq_true.mpr ⟨m', hm', by simp [he]⟩
        rw [this] at hnk
        cases hnk
      simp only [List.any_cons, List.any_nil, Bool.or_false,
        decide_eq_false_iff_not]
      exact fun he => hne he.symm

/-- `json.load`'s incremental dict construction is the identity on member
lists with pairwise distinct keys. -/
theorem collapseMembs_distinct {l : List (String × JVal)}
    (h : keysDistinct l = true) : collapseMembs l = l := by
  have := collapseMembs_aux l [] h (fun m _ => rfl)
  simpa [collapseMembs] using this

theorem stringMk_data (k : String) : String.mk k.data = k := rfl

/-- Leading whitespace in the input does not affect `parseVal`. -/
theorem parseVal_wselim (pf₀ : Nat) (ws x : List Char)
    (hws : ws.all isWsChar = true) :
    parseVal (pf₀ + 1) (ws ++ x) = parseVal (pf₀ + 1) x := by
  unfold parseVal
  rw [skipWs_ws_append _ hws]

/-- `parseVal` on input starting with a digit is the greedy number parser. -/
theorem parseVal_digit (pf₀ : Nat) (c : Char) (T : List Char)
    (h : c.isDigit = true) :
    parseVal (pf₀ + 1) (c :: T) =
      some (.num ((parseNatAcc (c.toNat - 48) T).1 : Int),
        (parseNatAcc (c.toNat - 48) T).2) := by
  obtain ⟨h1, h2, h3, h4, h5, h6, h7, _, _, _, _⟩ := isDigit_facts h
  have hw := isDigit_not_ws h
  unfold parseVal
  rw [skipWs_cons_nonws _ hw]
  change (if c = lbrace then _ else _) = _
  rw [if_neg h1]
  change (if c = '[' then _ else _) = _
  rw [if_neg h2]
  change (if c = '"' then _ else _) = _
  rw [if_neg h3]
  change (if c = 'n' then _ else _) = _
  rw [if_neg h4]
  change (if c = 't' then _ else _) = _
  rw [if_neg h5]
  change (if c = 'f' then _ else _) = _
  rw [if_neg h6]
  change (if c = '-' then _ else _) = _
  rw [if_neg h7]
  change (if c.isDigit = true then _ else _) = _
  rw [if_pos h]

/-- `parseVal` on `-` followed by a digit is the negated number parser. -/
theorem parseVal_dash (pf₀ : Nat) (d : Char) (T : List Char)
    (hd : d.isDigit = true) :
    parseVal (pf₀ + 1) ('-' :: d :: T) =
      some (.num (-((parseNatAcc 0 (d :: T)).1 : Int)),
        (parseNatAcc 0 (d :: T)).2) := by
  unfold parseVal
  rw [skipWs_cons_nonws _ (by decide)]
  change (if d.isDigit = true then _ else _) = _
  rw [if_pos hd]

/-- The joint round-trip induction: parsing inverts serialization for
values, array-item tails and object-member tails, given enough parser
fuel and well-formedness at the given depth fuel. -/
theorem rt_main : ∀ fuel,
    (∀ v ind ws rest pf, WFbFuel fuel v = true →
      ws.all isWsChar = true →
      (serVal ind v).length < pf →
      (match rest with | [] => True | c :: _ => c.isDigit = false) →
      parseVal pf (ws ++ (serVal ind v ++ rest)) = some (v, rest)) ∧
    (∀ vs ind ind₂ rest pf, WFbItems fuel vs = true →
      (serItems ind vs).length + 1 < pf →
      parseItems pf (serItems ind vs ++ '\n' :: (spaces ind₂ ++ ']' :: rest)) =
        some (vs, rest)) ∧
    (∀ ms ind ind₂ rest pf, WFbMembs fuel ms = true →
      (serMembs ind ms).length + 1 < pf →
      parseMembs pf (serMembs ind ms ++ '\n' :: (spaces ind₂ ++ rbrace :: rest)) =
        some (ms, rest)) := by
  intro fuel
  induction fuel with
  | zero =>
    refine ⟨fun v ind ws rest pf hwf => ?_, fun vs ind ind₂ rest pf hwf => ?_,
      fun ms ind ind₂ rest pf hwf => ?_⟩ <;>
      simp [WFbFuel, WFbItems, WFbMembs] at hwf
  | succ f ih =>
    obtain ⟨ihV, ihI, ihM⟩ := ih
    refine ⟨?_, ?_, ?_⟩
    · -- values
      intro v ind ws rest pf hwf hws hlen hrest
      cases v with
      | null =>
        cases pf with
        | zero => exact absurd hlen (Nat.not_lt_zero _)
        | succ pf₀ =>
          rw [parseVal_wselim pf₀ ws _ hws]
          rfl
      | bool b =>
        cases pf with
        | zero => exact absurd hlen (Nat.not_lt_zero _)
        | succ pf₀ =>
          rw [parseVal_wselim pf₀ ws _ hws]
          cases b with
          | false => rfl
          | true => rfl
      | str s =>
        cases pf with
        | zero => exact absurd hlen (Nat.not_lt_zero _)
        | succ pf₀ =>
          rw [parseVal_wselim pf₀ ws _ hws]
          rw [show serVal ind (JVal.str s) ++ rest =
            '"' :: ((s.map escChar).flatten ++ '"' :: rest) from by
              show serStr s ++ rest = _
              simp [serStr]]
          show (match parseStrBody ((s.map escChar).flatten ++ '"' :: rest) with
            | some (cs, r₂) => some (JVal.str cs, r₂)
            | none => none) = some (JVal.str s, rest)
          rw [parseStrBody_roundtrip s rest]
      | num n =>
        cases n with
        | ofNat m =>
          obtain ⟨c₀, t₀, hsn, hdig⟩ := serNat_head m
          cases pf with
          | zero => exact absurd hlen (Nat.not_lt_zero _)
          | succ pf₀ =>
            rw [parseVal_wselim pf₀ ws _ hws]
            rw [show serVal ind (JVal.num (Int.ofNat m)) ++ rest =
              c₀ :: (t₀ ++ rest) from by
                show serNat m ++ rest = _
                rw [hsn, List.cons_append]]
            rw [parseVal_digit pf₀ c₀ (t₀ ++ rest) hdig]
            have hacc0 : parseNatAcc 0 (serNat m ++ rest) = (m, rest) :=
              parseNatAcc_serNat m rest hrest
            rw [hsn, List.cons_append] at hacc0
            unfold parseNatAcc at hacc0
            rw [if_pos hdig, Nat.zero_mul, Nat.zero_add] at hacc0
            rw [hacc0]
            rfl
        | negSucc m =>
          obtain ⟨c₀, t₀, hsn, hdig⟩ := serNat_head (m + 1)
          cases pf with
          | zero => exact absurd hlen (Nat.not_lt_zero _)
          | succ pf₀ =>
            rw [parseVal_wselim pf₀ ws _ hws]
            rw [show serVal ind (JVal.num (Int.negSucc m)) ++ rest =
              '-' :: (c₀ :: (t₀ ++ rest)) from by
                show ('-' :: serNat (m + 1)) ++ rest = _
                rw [List.cons_append, hsn, List.cons_append]]
            rw [parseVal_dash pf₀ c₀ (t₀ ++ rest) hdig]
            have hacc0 : parseNatAcc 0 (serNat (m + 1) ++ rest) = (m + 1, rest) :=
              parseNatAcc_serNat (m + 1) rest hrest
            rw [hsn, List.cons_append] at hacc0
            rw [hacc0]
            show some (JVal.num (-((m + 1 : Nat) : Int)), rest) =
              some (JVal.num (Int.negSucc m), rest)
            norm_num [Int.negSucc_eq]
      | arr l =>
        cases l with
        | nil =>
          cases pf with
          | zero => exact absurd hlen (Nat.not_lt_zero _)
          | succ pf₀ =>
            rw [parseVal_wselim pf₀ ws _ hws]
            rfl
        | cons x xs =>
          replace hwf : WFbItems f (x :: xs) = true := hwf
          cases f with
          | zero => simp [WFbItems] at hwf
          | succ f' =>
            replace hwf : (WFbFuel f' x && WFbItems f' xs) = true := hwf
            rcases Bool.and_eq_true_iff.mp hwf with ⟨hx0, hxs0⟩
            have hxWF : WFbFuel (f' + 1) x = true := (WFb_mono f').1 x hx0
            have hxsWF : WFbItems (f' + 1) xs = true := (WFb_mono f').2.1 xs hxs0
            have he : (serVal ind (JVal.arr (x :: xs))).length =
                ind + (serVal (ind + 2) x).length +
                  (serItems (ind + 2) xs).length + ind + 6 := by
              show ('[' :: '\n' :: (spaces (ind + 2) ++ serVal (ind + 2) x ++
                serItems (ind + 2) xs ++ '\n' :: (spaces ind ++ [']']))).length = _
              simp [spaces]
              omega
            rw [he] at hlen
            cases pf with
            | zero => exact absurd hlen (Nat.not_lt_zero _)
            | succ pf₀ =>
              rw [parseVal_wselim pf₀ ws _ hws]
              rw [show serVal ind (JVal.arr (x :: xs)) ++ rest =
                '[' :: ('\n' :: (spaces (ind + 2) ++ (serVal (ind + 2) x ++
                  (serItems (ind + 2) xs ++
                    ('\n' :: (spaces ind ++ (']' :: rest))))))) from by
                show ('[' :: '\n' :: (spaces (ind + 2) ++ serVal (ind + 2) x ++
                  serItems (ind + 2) xs ++ '\n' :: (spaces ind ++ [']']))) ++ rest = _
                simp [List.append_assoc]]
              have hnd : (match serItems (ind + 2) xs ++
                  ('\n' :: (spaces ind ++ (']' :: rest))) with
                | [] => True | c :: _ => c.isDigit = false) := by
                cases xs with
                | nil => exact (by decide : ('\n' : Char).isDigit = false)
                | cons y ys => exact (by decide : (',' : Char).isDigit = false)
              have hx : parseVal pf₀ ('\n' :: (spaces (ind + 2) ++
                  (serVal (ind + 2) x ++ (serItems (ind + 2) xs ++
                    ('\n' :: (spaces ind ++ (']' :: rest))))))) =
                  some (x, serItems (ind + 2) xs ++
                    ('\n' :: (spaces ind ++ (']' :: rest)))) := by
                rw [show ('\n' :: (spaces (ind + 2) ++ (serVal (ind + 2) x ++
                    (serItems (ind + 2) xs ++
                      ('\n' :: (spaces ind ++ (']' :: rest))))))) =
                  ('\n' :: spaces (ind + 2)) ++ (serVal (ind + 2) x ++
                    (serItems (ind + 2) xs ++
                      ('\n' :: (spaces ind ++ (']' :: rest))))) from by simp]
                exact ihV x (ind + 2) ('\n' :: spaces (ind + 2)) _ pf₀ hxWF
                  (by rw [List.all_cons, spaces_all_ws]; rfl) (by omega) hnd
              have hitems0 : parseItems pf₀ (serItems (ind + 2) xs ++
                  '\n' :: (spaces ind ++ ']' :: rest)) = some (xs, rest) :=
                ihI xs (ind + 2) ind rest pf₀ hxsWF (by omega)
              obtain ⟨c₀, t₀, hserx, hc₀ws, hc₀ne, _, _⟩ := serVal_shape (ind + 2) x
              show (match skipWs ('\n' :: (spaces (ind + 2) ++ (serVal (ind + 2) x ++
                  (serItems (ind + 2) xs ++
                    ('\n' :: (spaces ind ++ (']' :: rest))))))) with
                | c₂ :: r₂ =>
                  if c₂ = ']' then some (JVal.arr [], r₂)
                  else
                    match parseVal pf₀ ('\n' :: (spaces (ind + 2) ++
                      (serVal (ind + 2) x ++ (serItems (ind + 2) xs ++
                        ('\n' :: (spaces ind ++ (']' :: rest))))))) with
                    | some (v, r₃) =>
                      match parseItems pf₀ r₃ with
                      | some (vs, r₄) => some (JVal.arr (v :: vs), r₄)
                      | none => none
                    | none => none
                | [] => none) = some (JVal.arr (x :: xs), rest)
              rw [show skipWs ('\n' :: (spaces (ind + 2) ++ (serVal (ind + 2) x ++
                  (serItems (ind + 2) xs ++
                    ('\n' :: (spaces ind ++ (']' :: rest))))))) =
                c₀ :: (t₀ ++ (serItems (ind + 2) xs ++
                  ('\n' :: (spaces ind ++ (']' :: rest))))) from by
                rw [skipWs_indent, hserx, List.cons_append]
                exact skipWs_cons_nonws _ hc₀ws]
              change (if c₀ = ']' then _ else _) = _
              rw [if_neg hc₀ne]
              change (match parseVal pf₀ ('\n' :: (spaces (ind + 2) ++
                  (serVal (ind + 2) x ++ (serItems (ind + 2) xs ++
                    ('\n' :: (spaces ind ++ (']' :: rest))))))) with
                | some (v, r₃) =>
                  match parseItems pf₀ r₃ with
                  | some (vs, r₄) => some (JVal.arr (v :: vs), r₄)
                  | none => none
                | none => none) = _
              rw [hx]
              change (match parseItems pf₀ (serItems (ind + 2) xs ++
                  ('\n' :: (spaces ind ++ (']' :: rest)))) with
                | some (vs, r₄) => some (JVal.arr (x :: vs), r₄)
                | none => none) = _
              rw [hitems0]
      | obj l =>
        cases l with
        | nil =>
          cases pf with
          | zero => exact absurd hlen (Nat.not_lt_zero _)
          | succ pf₀ =>
            rw [parseVal_wselim pf₀ ws _ hws]
            rfl
        | cons m ms =>
          obtain ⟨k, v₀⟩ := m
          replace hwf : (keysDistinct ((k, v₀) :: ms) &&
              WFbMembs f ((k, v₀) :: ms)) = true := hwf
          rcases Bool.and_eq_true_iff.mp hwf with ⟨hkd, hms⟩
          cases f with
          | zero => simp [WFbMembs] at hms
          | succ f' =>
            replace hms : (WFbFuel f' v₀ && WFbMembs f' ms) = true := hms
            rcases Bool.and_eq_true_iff.mp hms with ⟨hv0, hms0⟩
            have hvWF : WFbFuel (f' + 1) v₀ = true := (WFb_mono f').1 v₀ hv0
            have hmsWF : WFbMembs (f' + 1) ms = true := (WFb_mono f').2.2 ms hms0
            have he : (serVal ind (JVal.obj ((k, v₀) :: ms))).length =
                ind + ((k.data.map escChar).flatten).length +
                  (serVal (ind + 2) v₀).length +
                  (serMembs (ind + 2) ms).length + ind + 10 := by
              show (lbrace :: '\n' :: (spaces (ind + 2) ++
                serMemb (ind + 2) (k, v₀) ++ serMembs (ind + 2) ms ++
                '\n' :: (spaces ind ++ [rbrace]))).length = _
              simp [spaces, serMemb, serStr]
              omega
            rw [he] at hlen
            cases pf with
            | zero => exact absurd hlen (Nat.not_lt_zero _)
            | succ pf₀ =>
              rw [parseVal_wselim pf₀ ws _ hws]
              rw [show serVal ind (JVal.obj ((k, v₀) :: ms)) ++ rest =
                lbrace :: ('\n' :: (spaces (ind + 2) ++
                  ('"' :: ((k.data.map escChar).flatten ++
                    ('"' :: (':' :: (' ' :: (serVal (ind + 2) v₀ ++
                      (serMembs (ind + 2) ms ++
                        ('\n' :: (spaces ind ++ (rbrace :: rest)))))))))))) from by
                show (lbrace :: '\n' :: (spaces (ind + 2) ++
                  serMemb (ind + 2) (k, v₀) ++ serMembs (ind + 2) ms ++
                  '\n' :: (spaces ind ++ [rbrace]))) ++ rest = _
                simp [serMemb, serStr, List.append_assoc]]
              have hnd : (match serMembs (ind + 2) ms ++
                  ('\n' :: (spaces ind ++ (rbrace :: rest))) with
                | [] => True | c :: _ => c.isDigit = false) := by
                cases ms with
                | nil => exact (by decide : ('\n' : Char).isDigit = false)
                | cons y ys => exact (by decide : (',' : Char).isDigit = false)
              have hv : parseVal pf₀ (' ' :: (serVal (ind + 2) v₀ ++
                  (serMembs (ind + 2) ms ++
                    ('\n' :: (spaces ind ++ (rbrace :: rest)))))) =
                  some (v₀, serMembs (ind + 2) ms ++
                    ('\n' :: (spaces ind ++ (rbrace :: rest)))) := by
                rw [show (' ' :: (serVal (ind + 2) v₀ ++ (serMembs (ind + 2) ms ++
                    ('\n' :: (spaces ind ++ (rbrace :: rest)))))) =
                  ([' '] : List Char) ++ (serVal (ind + 2) v₀ ++
                    (serMembs (ind + 2) ms ++
                      ('\n' :: (spaces ind ++ (rbrace :: rest))))) from rfl]
                exact ihV v₀ (ind + 2) [' '] _ pf₀ hvWF (by rfl) (by omega) hnd
              have hmembs0 : parseMembs pf₀ (serMembs (ind + 2) ms ++
                  '\n' :: (spaces ind ++ rbrace :: rest)) = some (ms, rest) :=
                ihM ms (ind + 2) ind rest pf₀ hmsWF (by omega)
              show (match skipWs ('\n' :: (spaces (ind + 2) ++
                  ('"' :: ((k.data.map escChar).flatten ++
                    ('"' :: (':' :: (' ' :: (serVal (ind + 2) v₀ ++
                      (serMembs (ind + 2) ms ++
                        ('\n' :: (spaces ind ++ (rbrace :: rest)))))))))))) with
                | c₂ :: r₂ =>
                  if c₂ = rbrace then some (JVal.obj [], r₂)
                  else if c₂ = '"' then
                    match parseStrBody r₂ with
                    | some (kcs, r₃) =>
                      match skipWs r₃ with
                      | c₃ :: r₄ =>
                        if c₃ = ':' then
                          match parseVal pf₀ r₄ with
                          | some (v, r₅) =>
                            match parseMembs pf₀ r₅ with
                            | some (ms', r₆) =>
                              some (JVal.obj (collapseMembs
                                ((String.mk kcs, v) :: ms')), r₆)
                            | none => none
                          | none => none
                        else none
                      | [] => none
                    | none => none
                  else none
                | [] => none) = some (JVal.obj ((k, v₀) :: ms), rest)
              rw [show skipWs ('\n' :: (spaces (ind + 2) ++
                  ('"' :: ((k.data.map escChar).flatten ++
                    ('"' :: (':' :: (' ' :: (serVal (ind + 2) v₀ ++
                      (serMembs (ind + 2) ms ++
                        ('\n' :: (spaces ind ++ (rbrace :: rest)))))))))))) =
                '"' :: ((k.data.map escChar).flatten ++
                  ('"' :: (':' :: (' ' :: (serVal (ind + 2) v₀ ++
                    (serMembs (ind + 2) ms ++
                      ('\n' :: (spaces ind ++ (rbrace :: rest))))))))) from by
                rw [skipWs_indent]
                exact skipWs_cons_nonws _ (by decide)]
              change (match parseStrBody ((k.data.map escChar).flatten ++
                  ('"' :: (':' :: (' ' :: (serVal (ind + 2) v₀ ++
                    (serMembs (ind + 2) ms ++
                      ('\n' :: (spaces ind ++ (rbrace :: rest))))))))) with
                | some (kcs, r₃) =>
                  match skipWs r₃ with
                  | c₃ :: r₄ =>
                    if c₃ = ':' then
                      match parseVal pf₀ r₄ with
                      | some (v, r₅) =>
                        match parseMembs pf₀ r₅ with
                        | some (ms', r₆) =>
                          some (JVal.obj (collapseMembs
                            ((String.mk kcs, v) :: ms')), r₆)
                        | none => none
                      | none => none
                    else none
                  | [] => none
                | none => none) = _
              rw [parseStrBody_roundtrip k.data
                (':' :: (' ' :: (serVal (ind + 2) v₀ ++ (serMembs (ind + 2) ms ++
                  ('\n' :: (spaces ind ++ (rbrace :: rest)))))))]
              change (match parseVal pf₀ (' ' :: (serVal (ind + 2) v₀ ++
                  (serMembs (ind + 2) ms ++
                    ('\n' :: (spaces ind ++ (rbrace :: rest)))))) with
                | some (v, r₅) =>
                  match parseMembs pf₀ r₅ with
                  | some (ms', r₆) =>
                    some (JVal.obj (collapseMembs
                      ((String.mk k.data, v) :: ms')), r₆)
                  | none => none
                | none => none) = _
              rw [hv]
              change (match parseMembs pf₀ (serMembs (ind + 2) ms ++
                  ('\n' :: (spaces ind ++ (rbrace :: rest)))) with
                | some (ms', r₆) =>
                  some (JVal.obj (collapseMembs
                    ((String.mk k.data, v₀) :: ms')), r₆)
                | none => none) = _
              rw [hmembs0]
              show some (JVal.obj (collapseMembs ((String.mk k.data, v₀) :: ms)),
                rest) = some (JVal.obj ((k, v₀) :: ms), rest)
              rw [stringMk_data, collapseMembs_distinct hkd]
    · -- array item tails
      intro vs ind ind₂ rest pf hwf hlen
      cases vs with
      | nil =>
        cases pf with
        | zero => exact absurd hlen (Nat.not_lt_zero _)
        | succ pf₀ =>
          rw [show serItems ind ([] : List JVal) ++
            '\n' :: (spaces ind₂ ++ ']' :: rest) =
            '\n' :: (spaces ind₂ ++ (']' :: rest)) from by simp [serItems]]
          show (match skipWs ('\n' :: (spaces ind₂ ++ (']' :: rest))) with
            | c :: r =>
              if c = ']' then some (([] : List JVal), r)
              else if c = ',' then
                match parseVal pf₀ r with
                | some (v, r₂) =>
                  match parseItems pf₀ r₂ with
                  | some (vs', r₃) => some (v :: vs', r₃)
                  | none => none
                | none => none
              else none
            | [] => none) = some (([] : List JVal), rest)
          rw [show skipWs ('\n' :: (spaces ind₂ ++ (']' :: rest))) = ']' :: rest from by
            rw [skipWs_indent]
            exact skipWs_cons_nonws _ (by decide)]
          rfl
      | cons x xs =>
        replace hwf : (WFbFuel f x && WFbItems f xs) = true := hwf
        rcases Bool.and_eq_true_iff.mp hwf with ⟨hx0, hxs0⟩
        have he : (serItems ind (x :: xs)).length =
            ind + (serVal ind x).length + (serItems ind xs).length + 2 := by
          show (',' :: '\n' :: (spaces ind ++ serVal ind x ++
            serItems ind xs)).length = _
          simp [spaces]
          omega
        rw [he] at hlen
        cases pf with
        | zero => exact absurd hlen (Nat.not_lt_zero _)
        | succ pf₀ =>
          rw [show serItems ind (x :: xs) ++ '\n' :: (spaces ind₂ ++ ']' :: rest) =
            ',' :: ('\n' :: (spaces ind ++ (serVal ind x ++ (serItems ind xs ++
              ('\n' :: (spaces ind₂ ++ (']' :: rest))))))) from by
            show (',' :: '\n' :: (spaces ind ++ serVal ind x ++ serItems ind xs)) ++
              '\n' :: (spaces ind₂ ++ ']' :: rest) = _
            simp [List.append_assoc]]
          have hnd : (match serItems ind xs ++
              ('\n' :: (spaces ind₂ ++ (']' :: rest))) with
            | [] => True | c :: _ => c.isDigit = false) := by
            cases xs with
            | nil => exact (by decide : ('\n' : Char).isDigit = false)
            | cons y ys => exact (by decide : (',' : Char).isDigit = false)
          have hx : parseVal pf₀ ('\n' :: (spaces ind ++ (serVal ind x ++
              (serItems ind xs ++ ('\n' :: (spaces ind₂ ++ (']' :: rest))))))) =
              some (x, serItems ind xs ++
                ('\n' :: (spaces ind₂ ++ (']' :: rest)))) := by
            rw [show ('\n' :: (spaces ind ++ (serVal ind x ++ (serItems ind xs ++
                ('\n' :: (spaces ind₂ ++ (']' :: rest))))))) =
              ('\n' :: spaces ind) ++ (serVal ind x ++ (serItems ind xs ++
                ('\n' :: (spaces ind₂ ++ (']' :: rest))))) from by simp]
            exact ihV x ind ('\n' :: spaces ind) _ pf₀ hx0
              (by rw [List.all_cons, spaces_all_ws]; rfl) (by omega) hnd
          have hitems' : parseItems pf₀ (serItems ind xs ++
              '\n' :: (spaces ind₂ ++ ']' :: rest)) = some (xs, rest) :=
            ihI xs ind ind₂ rest pf₀ hxs0 (by omega)
          show (match skipWs (',' :: ('\n' :: (spaces ind ++ (serVal ind x ++
              (serItems ind xs ++ ('\n' :: (spaces ind₂ ++ (']' :: rest)))))))) with
            | c :: r =>
              if c = ']' then some (([] : List JVal), r)
              else if c = ',' then
                match parseVal pf₀ r with
                | some (v, r₂) =>
                  match parseItems pf₀ r₂ with
                  | some (vs', r₃) => some (v :: vs', r₃)
                  | none => none
                | none => none
              else none
            | [] => none) = some (x :: xs, rest)
          rw [show skipWs (',' :: ('\n' :: (spaces ind ++ (serVal ind x ++
              (serItems ind xs ++ ('\n' :: (spaces ind₂ ++ (']' :: rest)))))))) =
            ',' :: ('\n' :: (spaces ind ++ (serVal ind x ++ (serItems ind xs ++
              ('\n' :: (spaces ind₂ ++ (']' :: rest))))))) from
            skipWs_cons_nonws _ (by decide)]
          change (match parseVal pf₀ ('\n' :: (spaces ind ++ (serVal ind x ++
              (serItems ind xs ++ ('\n' :: (spaces ind₂ ++ (']' :: rest))))))) with
            | some (v, r₂) =>
              match parseItems pf₀ r₂ with
              | some (vs', r₃) => some (v :: vs', r₃)
              | none => none
            | none => none) = _
          rw [hx]
          change (match parseItems pf₀ (serItems ind xs ++
              ('\n' :: (spaces ind₂ ++ (']' :: rest)))) with
            | some (vs', r₃) => some (x :: vs', r₃)
            | none => none) = _
          rw [hitems']
    · -- object member tails
      intro ms ind ind₂ rest pf hwf hlen
      cases ms with
      | nil =>
        cases pf with
        | zero => exact absurd hlen (Nat.not_lt_zero _)
        | succ pf₀ =>
          rw [show serMembs ind ([] : List (String × JVal)) ++
            '\n' :: (spaces ind₂ ++ rbrace :: rest) =
            '\n' :: (spaces ind₂ ++ (rbrace :: rest)) from by simp [serMembs]]
          show (match skipWs ('\n' :: (spaces ind₂ ++ (rbrace :: rest))) with
            | c :: r =>
              if c = rbrace then some (([] : List (String × JVal)), r)
              else if c = ',' then
                match skipWs r with
                | c₂ :: r₂ =>
                  if c₂ = '"' then
                    match parseStrBody r₂ with
                    | some (kcs, r₃) =>
                      match skipWs r₃ with
                      | c₃ :: r₄ =>
                        if c₃ = ':' then
                          match parseVal pf₀ r₄ with
                          | some (v, r₅) =>
                            match parseMembs pf₀ r₅ with
                            | some (ms', r₆) => some ((String.mk kcs, v) :: ms', r₆)
                            | none => none
                          | none => none
                        else none
                      | [] => none
                    | none => none
                  else none
                | [] => none
              else none
            | [] => none) = some (([] : List (String × JVal)), rest)
          rw [show skipWs ('\n' :: (spaces ind₂ ++ (rbrace :: rest))) =
            rbrace :: rest from by
            rw [skipWs_indent]
            exact skipWs_cons_nonws _ (by decide)]
          rfl
      | cons m ms' =>
        obtain ⟨k, v₀⟩ := m
        replace hwf : (WFbFuel f v₀ && WFbMembs f ms') = true := hwf
        rcases Bool.and_eq_true_iff.mp hwf with ⟨hv0, hms0⟩
        have he : (serMembs ind ((k, v₀) :: ms')).length =
            ind + ((k.data.map escChar).flatten).length +
              (serVal ind v₀).length + (serMembs ind ms').length + 6 := by
          show (',' :: '\n' :: (spaces ind ++ serMemb ind (k, v₀) ++
            serMembs ind ms')).length = _
          simp [spaces, serMemb, serStr]
          omega
        rw [he] at hlen
        cases pf with
        | zero => exact absurd hlen (Nat.not_lt_zero _)
        | succ pf₀ =>
          rw [show serMembs ind ((k, v₀) :: ms') ++
            '\n' :: (spaces ind₂ ++ rbrace :: rest) =
            ',' :: ('\n' :: (spaces ind ++ ('"' :: ((k.data.map escChar).flatten ++
              ('"' :: (':' :: (' ' :: (serVal ind v₀ ++ (serMembs ind ms' ++
                ('\n' :: (spaces ind₂ ++ (rbrace :: rest)))))))))))) from by
            show (',' :: '\n' :: (spaces ind ++ serMemb ind (k, v₀) ++
              serMembs ind ms')) ++ '\n' :: (spaces ind₂ ++ rbrace :: rest) = _
            simp [serMemb, serStr, List.append_assoc]]
          have hnd : (match serMembs ind ms' ++
              ('\n' :: (spaces ind₂ ++ (rbrace :: rest))) with
            | [] => True | c :: _ => c.isDigit = false) := by
            cases ms' with
            | nil => exact (by decide : ('\n' : Char).isDigit = false)
            | cons y ys => exact (by decide : (',' : Char).isDigit = false)
          have hv : parseVal pf₀ (' ' :: (serVal ind v₀ ++ (serMembs ind ms' ++
              ('\n' :: (spaces ind₂ ++ (rbrace :: rest)))))) =
              some (v₀, serMembs ind ms' ++
                ('\n' :: (spaces ind₂ ++ (rbrace :: rest)))) := by
            rw [show (' ' :: (serVal ind v₀ ++ (serMembs ind ms' ++
                ('\n' :: (spaces ind₂ ++ (rbrace :: rest)))))) =
              ([' '] : List Char) ++ (serVal ind v₀ ++ (serMembs ind ms' ++
                ('\n' :: (spaces ind₂ ++ (rbrace :: rest))))) from rfl]
            exact ihV v₀ ind [' '] _ pf₀ hv0 (by rfl) (by omega) hnd
          have hmembs' : parseMembs pf₀ (serMembs ind ms' ++
              '\n' :: (spaces ind₂ ++ rbrace :: rest)) = some (ms', rest) :=
            ihM ms' ind ind₂ rest pf₀ hms0 (by omega)
          show (match skipWs (',' :: ('\n' :: (spaces ind ++
              ('"' :: ((k.data.map escChar).flatten ++
                ('"' :: (':' :: (' ' :: (serVal ind v₀ ++ (serMembs ind ms' ++
                  ('\n' :: (spaces ind₂ ++ (rbrace :: rest)))))))))))))  with
            | c :: r =>
              if c = rbrace then some (([] : List (String × JVal)), r)
              else if c = ',' then
                match skipWs r with
                | c₂ :: r₂ =>
                  if c₂ = '"' then
                    match parseStrBody r₂ with
                    | some (kcs, r₃) =>
                      match skipWs r₃ with
                      | c₃ :: r₄ =>
                        if c₃ = ':' then
                          match parseVal pf₀ r₄ with
                          | some (v, r₅) =>
                            match parseMembs pf₀ r₅ with
                            | some (ms'', r₆) => some ((String.mk kcs, v) :: ms'', r₆)
                            | none => none
                          | none => none
                        else none
                      | [] => none
                    | none => none
                  else none
                | [] => none
              else none
            | [] => none) = some ((k, v₀) :: ms', rest)
          rw [show skipWs (',' :: ('\n' :: (spaces ind ++
              ('"' :: ((k.data.map escChar).flatten ++
                ('"' :: (':' :: (' ' :: (serVal ind v₀ ++ (serMembs ind ms' ++
                  ('\n' :: (spaces ind₂ ++ (rbrace :: rest))))))))))))) =
            ',' :: ('\n' :: (spaces ind ++ ('"' :: ((k.data.map escChar).flatten ++
              ('"' :: (':' :: (' ' :: (serVal ind v₀ ++ (serMembs ind ms' ++
                ('\n' :: (spaces ind₂ ++ (rbrace :: rest)))))))))))) from
            skipWs_cons_nonws _ (by decide)]
          change (match skipWs ('\n' :: (spaces ind ++
              ('"' :: ((k.data.map escChar).flatten ++
                ('"' :: (':' :: (' ' :: (serVal ind v₀ ++ (serMembs ind ms' ++
                  ('\n' :: (spaces ind₂ ++ (rbrace :: rest)))))))))))) with
            | c₂ :: r₂ =>
              if c₂ = '"' then
                match parseStrBody r₂ with
                | some (kcs, r₃) =>
                  match skipWs r₃ with
                  | c₃ :: r₄ =>
                    if c₃ = ':' then
                      match parseVal pf₀ r₄ with
                      | some (v, r₅) =>
                        match parseMembs pf₀ r₅ with
                        | some (ms'', r₆) => some ((String.mk kcs, v) :: ms'', r₆)
                        | none => none
                      | none => none
                    else none
                  | [] => none
                | none => none
              else none
            | [] => none) = _
          rw [show skipWs ('\n' :: (spaces ind ++
              ('"' :: ((k.data.map escChar).flatten ++
                ('"' :: (':' :: (' ' :: (serVal ind v₀ ++ (serMembs ind ms' ++
                  ('\n' :: (spaces ind₂ ++ (rbrace :: rest)))))))))))) =
            '"' :: ((k.data.map escChar).flatten ++
              ('"' :: (':' :: (' ' :: (serVal ind v₀ ++ (serMembs ind ms' ++
                ('\n' :: (spaces ind₂ ++ (rbrace :: rest))))))))) from by
            rw [skipWs_indent]
            exact skipWs_cons_nonws _ (by decide)]
          change (match parseStrBody ((k.data.map escChar).flatten ++
              ('"' :: (':' :: (' ' :: (serVal ind v₀ ++ (serMembs ind ms' ++
                ('\n' :: (spaces ind₂ ++ (rbrace :: rest))))))))) with
            | some (kcs, r₃) =>
              match skipWs r₃ with
              | c₃ :: r₄ =>
                if c₃ = ':' then
                  match parseVal pf₀ r₄ with
                  | some (v, r₅) =>
                    match parseMembs pf₀ r₅ with
                    | some (ms'', r₆) => some ((String.mk kcs, v) :: ms'', r₆)
                    | none => none
                  | none => none
                else none
              | [] => none
            | none => none) = _
          rw [parseStrBody_roundtrip k.data
            (':' :: (' ' :: (serVal ind v₀ ++ (serMembs ind ms' ++
              ('\n' :: (spaces ind₂ ++ (rbrace :: rest)))))))]
          change (match parseVal pf₀ (' ' :: (serVal ind v₀ ++ (serMembs ind ms' ++
              ('\n' :: (spaces ind₂ ++ (rbrace :: rest)))))) with
            | some (v, r₅) =>
              match parseMembs pf₀ r₅ with
              | some (ms'', r₆) => some ((String.mk k.data, v) :: ms'', r₆)
              | none => none
            | none => none) = _
          rw [hv]
          change (match parseMembs pf₀ (serMembs ind ms' ++
              ('\n' :: (spaces ind₂ ++ (rbrace :: rest)))) with
            | some (ms'', r₆) => some ((String.mk k.data, v₀) :: ms'', r₆)
            | none => none) = _
          rw [hmembs', stringMk_data]

/-- C8: round-trip — serializing a document the way `json.dump(..., indent=2,
ensure_ascii=False)` writes the output file and re-parsing that output the way
`json.load` reads it yields a document structurally equal to the in-memory
one: same keys, same order, same values.  The hypothesis `WFbFuel fuel v`
certifies a nesting-depth bound `fuel` and that every object has pairwise
distinct keys, which holds of every document produced by `json.load` since
Python dicts cannot hold duplicate keys. -/
theorem claim_roundtrip (v : JVal) (fuel : Nat)
    (hwf : WFbFuel fuel v = true) :
    parse (serialize v) = some v := by
  have h := (rt_main fuel).1 v 0 [] [] ((serVal 0 v).length + 1) hwf rfl
    (Nat.lt_succ_self _) trivial
  rw [List.nil_append, List.append_nil] at h
  show (match parseVal ((serVal 0 v).length + 1) (serVal 0 v) with
    | some (v', rest) => if (skipWs rest).isEmpty then some v' else none
    | none => none) = some v
  rw [h]
  rfl

theorem claim_roundtrip_witness :
    WFbFuel 20 exDoc8 = true ∧ parse (serialize exDoc8) = some exDoc8 :=
  ⟨by decide, claim_roundtrip exDoc8 20 (by decide)⟩

end QuranFix
